import Mathlib

/-!
Verification development for the `pdf_to_HTML_Text` repository.

The source (`parser.py`) is shallowly embedded here: Python strings become
`List Char`, Python dicts (`Dict[str, any]`) become association lists over a
`Value` universe (string / bool / sub-mapping), and fallible Python code
(attribute errors on non-mapping values) becomes `Except`.  All regular
expressions used by the extraction code are translated into bespoke
leftmost-match scanners with explicit greedy/backtracking alternatives that
mirror Python `re` semantics for the concrete patterns in the source.
-/

namespace PdfHtml

/-- Python strings are modelled as lists of characters. -/
abbrev Str := List Char

/-- The universe of Python values that occur in the parser's data maps:
strings, booleans, and nested string-keyed mappings (`Billing Details:`).
`Dict[str, any]` in the source is modelled as `List (Str × Value)`. -/
inductive Value where
  | vStr  (s : Str)
  | vBool (b : Bool)
  | vMap  (m : List (Str × Value))
deriving Repr

/-- A Python dict of parsed booking data, as an insertion-ordered
association list (Python dicts preserve insertion order). -/
abbrev DataMap := List (Str × Value)

/-- Python truthiness for the modelled values: empty string, `False`
and the empty dict are falsy, everything else is truthy. -/
def truthy : Value → Bool
  | .vStr s  => !s.isEmpty
  | .vBool b => b
  | .vMap m  => !m.isEmpty

/-- Dictionary lookup, `d.get(k)`: the value of the first (unique in any
real Python dict) binding of `k`. -/
def dget : DataMap → Str → Option Value
  | [], _ => none
  | (k', v) :: rest, k => if k = k' then some v else dget rest k

/-- Python `d[k] = v`: replace the value in place if the key is bound,
otherwise append the binding at the end (insertion order). -/
def dput (k : Str) (v : Value) : DataMap → DataMap
  | [] => [(k, v)]
  | (k', v') :: rest => if k' = k then (k, v) :: rest else (k', v') :: dput k v rest

/-- Conditional assignment `if m: d[k] = f(m)` for an optional match result. -/
def dputIf (o : Option α) (k : Str) (f : α → Value) (d : DataMap) : DataMap :=
  match o with
  | some a => dput k (f a) d
  | none => d

/-- Python `d.setdefault(k, v)`: insert `v` only when `k` is unbound. -/
def dsetdefault (k : Str) (v : Value) (d : DataMap) : DataMap :=
  if (dget d k).isSome then d else dput k v d

/-- FIELD_ORDER from `parser.py`: the exact order of fields in the output. -/
def FIELD_ORDER : List Str :=
  [ "Status booking Reservation".data,
    "Customer First Name".data,
    "Customer Last Name".data,
    "Email Customer".data,
    "BookingID".data,
    "Has Prepaid".data,
    "Booked on".data,
    "Check in".data,
    "Check out".data,
    "Special Request".data,
    "Room Type Code".data,
    "No. of room".data,
    "Occupancy Adult".data,
    "Occupancy Childrent".data,
    "Daily Rate".data,
    "Total Booking".data,
    "Amount to Charge Expedia".data,
    "Billing Details:".data ]

/-- BILLING_ORDER from `parser.py`: order of billing subfields. -/
def BILLING_ORDER : List Str :=
  [ "Card Number".data,
    "Activation Date".data,
    "Expiration Date".data,
    "Validation Code".data ]

def kStatus   : Str := "Status booking Reservation".data
def kFirst    : Str := "Customer First Name".data
def kLast     : Str := "Customer Last Name".data
def kEmail    : Str := "Email Customer".data
def kBookingID : Str := "BookingID".data
def kPrepaid  : Str := "Has Prepaid".data
def kBookedOn : Str := "Booked on".data
def kCheckin  : Str := "Check in".data
def kCheckout : Str := "Check out".data
def kSpecial  : Str := "Special Request".data
def kRoomType : Str := "Room Type Code".data
def kNoRoom   : Str := "No. of room".data
def kOccAdult : Str := "Occupancy Adult".data
def kOccChild : Str := "Occupancy Childrent".data
def kDaily    : Str := "Daily Rate".data
def kTotal    : Str := "Total Booking".data
def kAmount   : Str := "Amount to Charge Expedia".data
def kBilling  : Str := "Billing Details:".data

/-- Default for a non-billing field in `ordered_output`: `False` for
`Has Prepaid`, empty string otherwise. -/
def defaultFor (k : Str) : Value :=
  if k = kPrepaid then .vBool false else .vStr []

/-- The normalised billing sub-mapping built by `ordered_output` from the
(already dict-checked) billing source mapping `m`:
`bill[subkey] = sub.get(subkey, "")` in `BILLING_ORDER` order. -/
def billNorm (m : List (Str × Value)) : List (Str × Value) :=
  BILLING_ORDER.map (fun sk => (sk, (dget m sk).getD (.vStr [])))

/-- One pass of the `ordered_output` loop over the remaining keys `ks`.
For the billing key the Python code runs `sub = data.get(key, {}) or {}`
followed by `sub.get(...)`; when `sub` is a truthy non-mapping the
attribute access raises (`AttributeError`), modelled as `Except.error`. -/
def buildFields : List Str → DataMap → Except Unit DataMap
  | [], _ => .ok []
  | k :: ks, data =>
    if k = kBilling then
      let sub0 := (dget data k).getD (.vMap [])
      let sub := if truthy sub0 then sub0 else .vMap []
      match sub with
      | .vMap m => do
          let rest ← buildFields ks data
          .ok ((k, .vMap (billNorm m)) :: rest)
      | _ => .error ()
    else do
      let rest ← buildFields ks data
      .ok ((k, (dget data k).getD (defaultFor k)) :: rest)

/-- `ordered_output` from `parser.py`: pad and order a parsed data map
according to `FIELD_ORDER`, with the billing sub-mapping padded and
ordered according to `BILLING_ORDER`. -/
def ordered_output (data : DataMap) : Except Unit DataMap :=
  buildFields FIELD_ORDER data

/-- The billing value check under which `ordered_output` cannot raise: the
`Billing Details:` value, if bound and truthy, must be a sub-mapping.
(Falsy values are replaced by `{}` by the `or {}` in the source.) -/
def billingOK (data : DataMap) : Bool :=
  match dget data kBilling with
  | some (.vStr s)  => s.isEmpty
  | some (.vBool b) => !b
  | _ => true

/-- The billing source mapping actually used by `ordered_output`
(after `data.get(key, {}) or {}`), assuming `billingOK`. -/
def billSrc (data : DataMap) : List (Str × Value) :=
  match dget data kBilling with
  | some (.vMap m) => m
  | _ => []

/-- The value `ordered_output` assigns to field `k`. -/
def evalField (data : DataMap) (k : Str) : Value :=
  if k = kBilling then .vMap (billNorm (billSrc data))
  else (dget data k).getD (defaultFor k)

/-! ### Character classes and text normalisation (`norm_text`) -/

/-- The non-breaking space character replaced by `norm_text`. -/
def nbsp : Char := Char.ofNat 0xA0

/-- The regex class `[ \t]` collapsed by `norm_text`. -/
def isST (c : Char) : Bool := c = ' ' || c = '\t'

/-- The newline character class collapsed by `norm_text`. -/
def isNLc (c : Char) : Bool := c = '\n'

/-- Whitespace as recognised by Python's `str.strip()` and the regex
class `\s` on `str` patterns: the ASCII whitespace characters together
with the additional control/space characters Python treats as space
(`\x1c`-`\x1f`, `\x85`, `\xa0`).  Characters above Latin-1 that Python
also counts as spaces (U+2000 etc.) do not occur in the texts the parser
handles and are not modelled. -/
def isPySpace (c : Char) : Bool :=
  c = ' ' || c = '\t' || c = '\n' || c = '\r' ||
  c = Char.ofNat 0x0B || c = Char.ofNat 0x0C ||
  (0x1C ≤ c.toNat && c.toNat ≤ 0x1F) || c = Char.ofNat 0x85 || c = nbsp

/-- ASCII decimal digit, the regex class `\d` (Unicode digits beyond
ASCII are not modelled). -/
def isDig (c : Char) : Bool := '0' ≤ c && c ≤ '9'

/-- Lower-casing of a character as done by Python's `str.lower()`,
modelled on the ASCII and Latin-1 ranges (sufficient for every pattern
in the source; other characters are kept unchanged). -/
def lowerChar (c : Char) : Char :=
  if 'A' ≤ c && c ≤ 'Z' then Char.ofNat (c.toNat + 32)
  else if 0xC0 ≤ c.toNat && c.toNat ≤ 0xDE && c.toNat ≠ 0xD7 then Char.ofNat (c.toNat + 32)
  else c

/-- Python `str.lower()` over the modelled character ranges. -/
def lowerStr (s : Str) : Str := s.map lowerChar

/-- The regex class `\w` (word character) used by `\b` boundaries,
modelled on the ASCII and Latin-1 ranges. -/
def isWordChar (c : Char) : Bool :=
  ('a' ≤ c && c ≤ 'z') || ('A' ≤ c && c ≤ 'Z') || isDig c || c = '_' ||
  (0xC0 ≤ c.toNat && c.toNat ≤ 0xFF && c.toNat ≠ 0xD7 && c.toNat ≠ 0xF7)

/-- Replacement of non-breaking spaces by ordinary spaces,
`text.replace("\xa0", " ")`. -/
def nbspToSpace (c : Char) : Char := if c = nbsp then ' ' else c

/-- `re.sub(r"[p]+", r, text)` for a character class `p` and a
single-character replacement `r`: every maximal run of `p`-characters is
replaced by the single character `r`.  (For `\n{2,} -> \n` this is
equivalent since a lone newline is kept unchanged either way.) -/
def collapseRuns (p : Char → Bool) (r : Char) : Str → Str
  | [] => []
  | [c] => if p c then [r] else [c]
  | c :: c' :: cs =>
    if p c then
      if p c' then collapseRuns p r (c' :: cs) else r :: collapseRuns p r (c' :: cs)
    else c :: collapseRuns p r (c' :: cs)

/-- Removal of trailing characters satisfying `p` (the right half of
Python's `str.strip()`). -/
def dropEndWhile (p : Char → Bool) : Str → Str
  | [] => []
  | c :: cs =>
    match dropEndWhile p cs with
    | [] => if p c then [] else [c]
    | r => c :: r

/-- Python `str.strip()`: remove leading and trailing whitespace. -/
def pystrip (s : Str) : Str := dropEndWhile isPySpace (s.dropWhile isPySpace)

/-- `norm_text` from `parser.py`: replace non-breaking spaces, collapse
runs of spaces/tabs to one space, collapse runs of newlines to one
newline, and strip. -/
def norm_text (s : Str) : Str :=
  if s.isEmpty then []
  else pystrip (collapseRuns isNLc '\n' (collapseRuns isST ' ' (s.map nbspToSpace)))

/-! ### Generic leftmost-match scanners

Python's `re.search` scans candidate start positions left to right and
at each position matches the pattern with greedy, backtracking
quantifiers.  Each concrete pattern of the source is translated into a
`tryAt` function (attempt a match at the current position) driven by one
of the scanners below. -/

/-- Leftmost search: try `f` at every suffix, earliest position first. -/
def searchS (f : Str → Option α) : Str → Option α
  | [] => f []
  | c :: cs =>
    match f (c :: cs) with
    | some r => some r
    | none => searchS f cs

/-- Leftmost search threading the previous character (for `\b` word
boundaries and `(?<!..)` lookbehind); `prev = none` at the start of the
searched string. -/
def searchP (f : Option Char → Str → Option α) : Option Char → Str → Option α
  | prev, [] => f prev []
  | prev, c :: cs =>
    match f prev (c :: cs) with
    | some r => some r
    | none => searchP f (some c) cs

/-- Match a literal pattern (already lower-cased) case-insensitively at
the head of `s`, returning the rest of `s`. -/
def dropLitCI : Str → Str → Option Str
  | [], s => some s
  | _, [] => none
  | p :: ps, c :: cs => if lowerChar c = p then dropLitCI ps cs else none

/-- Match a literal pattern case-sensitively at the head of `s`. -/
def dropLit : Str → Str → Option Str
  | [], s => some s
  | _, [] => none
  | p :: ps, c :: cs => if c = p then dropLit ps cs else none

/-- Boolean prefix test (case-sensitive). -/
def startsWithB (p s : Str) : Bool := (dropLit p s).isSome

/-- Boolean substring test (used for vendor fingerprints: Python `in`). -/
def hasSub (p : Str) : Str → Bool
  | [] => startsWithB p []
  | c :: cs => startsWithB p (c :: cs) || hasSub p cs

/-- Does `s` contain the character `c`? -/
def hasChar (c : Char) (s : Str) : Bool := s.any (fun x => x = c)

/-- Greedy bounded quantifier with backtracking: try the continuation
`k taken rest` with `i` characters taken, then `i-1`, ... down to `lo`.
Used with `i` = the length of the maximal class run (capped by the
quantifier's upper bound) to model `[cls]{lo,hi}` followed by the rest
of the pattern `k`. -/
def tryLens (k : Str → Str → Option α) (s : Str) (lo : ℕ) : ℕ → Option α
  | 0 => if lo = 0 then k [] s else none
  | i + 1 =>
    if i + 1 < lo then none
    else
      match k (s.take (i + 1)) (s.drop (i + 1)) with
      | some r => some r
      | none => tryLens k s lo i

/-- The regex `[cls]{lo,hi}` (greedy) followed by the continuation `k`,
which receives the captured characters and the remaining input. -/
def greedyRange (lo hi : ℕ) (cls : Char → Bool) (k : Str → Str → Option α) (s : Str) :
    Option α :=
  tryLens k s lo (min hi (s.takeWhile cls).length)

/-- The regex `\s+` (greedy, with backtracking) followed by `k`. -/
def wsPlus (k : Str → Option α) (s : Str) : Option α :=
  greedyRange 1 (s.takeWhile isPySpace).length isPySpace (fun _ r => k r) s

/-- The regex `\s*` followed by `k`, in the patterns of the source where
no later pattern element can consume a whitespace character (so the
greedy run never needs to backtrack). -/
def wsStar (k : Str → Option α) (s : Str) : Option α :=
  k (s.dropWhile isPySpace)

/-! ### Numbers and date formatting -/

/-- Python `int(..)` on a string of ASCII digits. -/
def digitsToNat (s : Str) : ℕ := s.foldl (fun a c => 10 * a + (c.toNat - 48)) 0

/-- Python `f"{n}"` for a natural number. -/
def natStr (n : ℕ) : Str := Nat.toDigits 10 n

/-- Python `f"{n:02d}"`: zero-pad to two digits. -/
def fmt2 (n : ℕ) : Str := if n < 10 then '0' :: natStr n else natStr n

/-- Match exactly `n` characters of class `cls`, returning them and the rest. -/
def takeN (cls : Char → Bool) : ℕ → Str → Option (Str × Str)
  | 0, s => some ([], s)
  | _ + 1, [] => none
  | n + 1, c :: cs =>
    if cls c then (takeN cls n cs).map (fun p => (c :: p.1, p.2)) else none

/-- Month-name lexicon `_MONTH_MAP` from `parser.py`. -/
def MONTH_MAP : List (Str × ℕ) :=
  [ ("jan".data, 1), ("january".data, 1),
    ("feb".data, 2), ("february".data, 2),
    ("mar".data, 3), ("march".data, 3),
    ("apr".data, 4), ("april".data, 4),
    ("may".data, 5),
    ("jun".data, 6), ("june".data, 6),
    ("jul".data, 7), ("july".data, 7),
    ("aug".data, 8), ("august".data, 8),
    ("sep".data, 9), ("september".data, 9),
    ("oct".data, 10), ("october".data, 10),
    ("nov".data, 11), ("november".data, 11),
    ("dec".data, 12), ("december".data, 12) ]

/-- Lookup in `_MONTH_MAP` (exact key match). -/
def monthLookup : Str → Option ℕ :=
  fun m => (MONTH_MAP.find? (fun p => p.1 = m)).map Prod.snd

/-- `parse_month_day_year` from `parser.py`: convert textual
month/day/year parts to `MM/DD/YYYY`; on an unrecognised month fall back
to `f"{month} {day}, {year}"`.  (The `int` conversions cannot fail here:
the callers pass digit strings captured by `\d` patterns.) -/
def parse_month_day_year (month day year : Str) : Str :=
  match monthLookup (lowerStr (pystrip month)) with
  | some mm => fmt2 mm ++ '/' :: fmt2 (digitsToNat day) ++ '/' :: natStr (digitsToNat year)
  | none => month ++ ' ' :: day ++ ',' :: ' ' :: year

/-- Word-boundary test for the position after a match: the following
character must not be a word character (or the input must end). -/
def boundaryAfter : Str → Bool
  | [] => true
  | c :: _ => !isWordChar c

/-- Word-boundary test for the position before a match. -/
def boundaryBefore (prev : Option Char) : Bool :=
  match prev with
  | none => true
  | some c => !isWordChar c

/-- Match attempt for `\b(\d{1,2})/(\d{1,2})/(\d{4})\b` at one position
(with greedy backtracking on the `{1,2}` quantifiers). -/
def dmyAt (prev : Option Char) (s : Str) : Option (ℕ × ℕ × ℕ) :=
  if boundaryBefore prev then
    greedyRange 1 2 isDig (fun d1 r1 =>
      match r1 with
      | '/' :: r2 =>
        greedyRange 1 2 isDig (fun d2 r3 =>
          match r3 with
          | '/' :: r4 =>
            match takeN isDig 4 r4 with
            | some (y, r5) =>
              if boundaryAfter r5 then some (digitsToNat d1, digitsToNat d2, digitsToNat y)
              else none
            | none => none
          | _ => none) r2
      | _ => none) s
  else none

/-- Leftmost match of the numeric `DD/MM/YYYY` pattern of
`parse_vi_sent_datetime`, returning `(day, month, year)` as captured. -/
def findNumericDMY (t : Str) : Option (ℕ × ℕ × ℕ) := searchP dmyAt none t

/-- Match attempt for `(\d{1,2})\s+th[aá]ng\s+(\d{1,2}),\s*(\d{4})`
(case-insensitive) at one position. -/
def thangAt (s : Str) : Option (ℕ × ℕ × ℕ) :=
  greedyRange 1 2 isDig (fun d1 r1 =>
    wsPlus (fun r2 =>
      match r2 with
      | t :: h :: a :: n :: g :: r3 =>
        if lowerChar t = 't' && lowerChar h = 'h' &&
           (lowerChar a = 'a' || lowerChar a = Char.ofNat 0xE1) &&
           lowerChar n = 'n' && lowerChar g = 'g' then
          wsPlus (fun r4 =>
            greedyRange 1 2 isDig (fun d2 r5 =>
              match r5 with
              | ',' :: r6 =>
                wsStar (fun r7 =>
                  (takeN isDig 4 r7).map (fun p =>
                    (digitsToNat d1, digitsToNat d2, digitsToNat p.1))) r6
              | _ => none) r4) r3
        else none
      | _ => none) r1) s

/-- Leftmost match of the `DD tháng MM, YYYY` pattern. -/
def findThang (t : Str) : Option (ℕ × ℕ × ℕ) := searchS thangAt t

/-- `parse_vi_sent_datetime` from `parser.py`: extract a sent date from
Vietnamese header lines, swapping the captured day/month into
`MM/DD/YYYY`; empty string when neither pattern occurs. -/
def parse_vi_sent_datetime (t : Str) : Str :=
  if t.isEmpty then []
  else
    match findNumericDMY t with
    | some (dd, mm, yyyy) => fmt2 mm ++ '/' :: fmt2 dd ++ '/' :: natStr yyyy
    | none =>
      match findThang t with
      | some (dd, mm, yyyy) => fmt2 mm ++ '/' :: fmt2 dd ++ '/' :: natStr yyyy
      | none => []

/-- The leading digits of a formatted date: its month component. -/
def monthComponent (s : Str) : ℕ := digitsToNat (s.takeWhile isDig)

/-! ### Comma-grouped numerals -/

/-- Cumulative parses of `(?:[sep]\d{3})+`: element `i` is the
concatenation of the first `i+1` groups together with the remaining
input after them, in increasing group count (so the last element is the
greedy maximal parse). -/
def grpsC (sepOK : Char → Bool) : Str → List (Str × Str)
  | c :: a :: b :: d :: r =>
    if sepOK c && isDig a && isDig b && isDig d then
      (c :: a :: b :: d :: [], r) :: (grpsC sepOK r).map (fun p => (c :: a :: b :: d :: p.1, p.2))
    else []
  | _ => []

/-- The regex `\d{1,3}(?:[sep]\d{3})+` (greedy, no trailing constraint):
returns the captured numeral and the remaining input. -/
def commaNumTok (sepOK : Char → Bool) (s : Str) : Option (Str × Str) :=
  greedyRange 1 3 isDig (fun ds r =>
    match (grpsC sepOK r).getLast? with
    | some (tok, rest) => some (ds ++ tok, rest)
    | none => none) s

/-- Separator class for the Agoda numerals: comma only. -/
def commaSep (c : Char) : Bool := c = ','

/-! ### Agoda field matchers (`AgodaParser.parse` and its helpers) -/

/-- Match attempt for `\bPREPAID\b` (case-insensitive). -/
def tryPrepaid (prev : Option Char) (s : Str) : Option Unit :=
  if boundaryBefore prev then
    (dropLitCI "prepaid".data s).bind (fun r => if boundaryAfter r then some () else none)
  else none

/-- `re.search(r"\bPREPAID\b", t, re.I)` as a Boolean. -/
def searchPrepaid (t : Str) : Bool := (searchP tryPrepaid none t).isSome

/-- Match attempt for `Booking ID\s*(\d+)` (case-insensitive). -/
def tryBookingId (s : Str) : Option Str :=
  (dropLitCI "booking id".data s).bind (wsStar (fun r =>
    let ds := r.takeWhile isDig
    if ds.isEmpty then none else some ds))

/-- Leftmost `Booking ID` capture. -/
def searchBookingId (t : Str) : Option Str := searchS tryBookingId t

/-- The character class `[A-ZÀ-Ỹ' \-]` of the Agoda name patterns
(codepoint range `À`..`Ỹ` = U+00C0..U+1EF8, as in the source). -/
def nameClass (c : Char) : Bool :=
  ('A' ≤ c && c ≤ 'Z') || (0xC0 ≤ c.toNat && c.toNat ≤ 0x1EF8) ||
  c.toNat = 39 || c = ' ' || c = '-'

/-- Match attempt for `<label>\s+([A-ZÀ-Ỹ' \-]+)` (case-sensitive). -/
def tryLabeledName (label : Str) (s : Str) : Option Str :=
  (dropLit label s).bind (wsPlus (fun r =>
    match r with
    | c :: _ => if nameClass c then some (r.takeWhile nameClass) else none
    | [] => none))

/-- Leftmost `Customer First Name` capture. -/
def searchFirstName (t : Str) : Option Str :=
  searchS (tryLabeledName "Customer First Name".data) t

/-- Leftmost `Customer Last Name` capture. -/
def searchLastName (t : Str) : Option Str :=
  searchS (tryLabeledName "Customer Last Name".data) t

/-- Cased-letter test for `str.title()`, modelled on the character
ranges that occur in the name class (ASCII, Latin-1 and Latin
Extended). -/
def isCased (c : Char) : Bool :=
  ('a' ≤ c && c ≤ 'z') || ('A' ≤ c && c ≤ 'Z') ||
  (0xC0 ≤ c.toNat && c.toNat ≤ 0xFF && c.toNat ≠ 0xD7 && c.toNat ≠ 0xF7) ||
  (0x100 ≤ c.toNat && c.toNat ≤ 0x1EF8)

/-- Upper-casing for `str.title()`, modelled on ASCII and Latin-1
(letters outside those ranges are kept unchanged). -/
def upperChar (c : Char) : Char :=
  if 'a' ≤ c && c ≤ 'z' then Char.ofNat (c.toNat - 32)
  else if 0xE0 ≤ c.toNat && c.toNat ≤ 0xFE && c.toNat ≠ 0xF7 then Char.ofNat (c.toNat - 32)
  else c

/-- One pass of Python `str.title()`: first letter of each run of cased
letters upper-cased, the rest lower-cased. -/
def pytitleGo (prevCased : Bool) : Str → Str
  | [] => []
  | c :: cs =>
    (if isCased c then (if prevCased then lowerChar c else upperChar c) else c) ::
      pytitleGo (isCased c) cs

/-- Python `str.title()` over the modelled character ranges. -/
def pytitle (s : Str) : Str := pytitleGo false s

/-- Match attempt for
`Email:\s*([^\s]+@[^\s]+agoda-messaging\.com)` (case-insensitive); the
two `[^\s]+` are greedy with backtracking (largest split first). -/
def tryEmailAt (s : Str) : Option Str :=
  (dropLitCI "email:".data s).bind (wsStar (fun r =>
    greedyRange 1 (r.takeWhile (fun c => !isPySpace c)).length (fun c => !isPySpace c)
      (fun a r2 =>
        match r2 with
        | '@' :: r3 =>
          greedyRange 1 (r3.takeWhile (fun c => !isPySpace c)).length (fun c => !isPySpace c)
            (fun b r4 =>
              (dropLitCI "agoda-messaging.com".data r4).map (fun _ =>
                a ++ '@' :: (b ++ r4.take 19))) r3
        | _ => none) r))

/-- Leftmost Agoda relay-email capture. -/
def searchAgodaEmail (t : Str) : Option Str := searchS tryEmailAt t

/-- ASCII letter, the regex class `[A-Za-z]`. -/
def isAsciiLetter (c : Char) : Bool := ('a' ≤ c && c ≤ 'z') || ('A' ≤ c && c ≤ 'Z')

/-- Match attempt for
`Check[- ]<inOut>\s+([A-Za-z]{3,9})\s*(\d{1,2}),\s*(\d{4})`
(case-insensitive), returning (month word, day, year) as captured. -/
def tryCheck (inOut : Str) (s : Str) : Option (Str × Str × Str) :=
  (dropLitCI "check".data s).bind (fun r1 =>
    match r1 with
    | c :: r2 =>
      if c = '-' || c = ' ' then
        (dropLitCI inOut r2).bind (wsPlus (fun r3 =>
          greedyRange 3 9 isAsciiLetter (fun mon r4 =>
            wsStar (fun r5 =>
              greedyRange 1 2 isDig (fun day r6 =>
                match r6 with
                | ',' :: r7 =>
                  wsStar (fun r8 => (takeN isDig 4 r8).map (fun p => (mon, day, p.1))) r7
                | _ => none) r5) r4) r3))
      else none
    | [] => none)

/-- Leftmost `Check-in` capture. -/
def searchCheckin (t : Str) : Option (Str × Str × Str) := searchS (tryCheck "in".data) t

/-- Leftmost `Check-out` capture. -/
def searchCheckout (t : Str) : Option (Str × Str × Str) := searchS (tryCheck "out".data) t

/-- Match attempt for
`Room Type\s+No\. of Rooms\s+Occupancy.*?\n([^\n]+)` (case-insensitive,
no DOTALL: the lazy `.*?` cannot cross the newline), returning the
captured data line. -/
def tryRoomHdr (s : Str) : Option Str :=
  (dropLitCI "room type".data s).bind (wsPlus (fun r1 =>
    (dropLitCI "no. of rooms".data r1).bind (wsPlus (fun r2 =>
      (dropLitCI "occupancy".data r2).bind (fun r3 =>
        let pre := r3.takeWhile (fun c => c ≠ '\n')
        match r3.drop pre.length with
        | _ :: rest =>
          let line := rest.takeWhile (fun c => c ≠ '\n')
          if line.isEmpty then none else some line
        | [] => none)))))

/-- Leftmost room/occupancy table data-line capture. -/
def searchRoomLine (t : Str) : Option Str := searchS tryRoomHdr t

/-- Match attempt for `(\d+)\s+<word>` (case-sensitive); the greedy
`\d+` only succeeds with the full digit run, since any shorter
alternative leaves a digit where `\s+` is required. -/
def tryNumWord (w : Str) (s : Str) : Option Str :=
  let ds := s.takeWhile isDig
  if ds.isEmpty then none
  else wsPlus (fun r => (dropLit w r).map (fun _ => ds)) (s.drop ds.length)

/-- Leftmost standalone `<N> Adult` capture. -/
def searchAdult (t : Str) : Option Str := searchS (tryNumWord "Adult".data) t

/-- Leftmost standalone `<N> Child` capture. -/
def searchChild (t : Str) : Option Str := searchS (tryNumWord "Child".data) t

/-- Python `str.split()` with no separator: split on whitespace runs,
discarding empty tokens. -/
def splitGo (acc : Str) : Str → List Str
  | [] => if acc.isEmpty then [] else [acc.reverse]
  | c :: cs =>
    if isPySpace c then
      if acc.isEmpty then splitGo [] cs else acc.reverse :: splitGo [] cs
    else splitGo (c :: acc) cs

/-- Python `str.split()`. -/
def pysplit (s : Str) : List Str := splitGo [] s

/-- Python `tok.isdigit()` over ASCII digits. -/
def isdigitTok (tok : Str) : Bool := !tok.isEmpty && tok.all isDig

/-- The token-classification loop over the room table data line: tokens
before the first numeric token form the room name, numeric tokens are
collected, and non-numeric tokens after the first number are skipped. -/
def roomScan : List Str → List Str × List Str → List Str × List Str
  | [], acc => acc
  | tok :: rest, (rts, nums) =>
    if nums.isEmpty && !isdigitTok tok then roomScan rest (rts ++ [tok], nums)
    else if isdigitTok tok then roomScan rest (rts, nums ++ [tok])
    else roomScan rest (rts, nums)

/-- Python `" ".join(tokens)`. -/
def joinSpace : List Str → Str
  | [] => []
  | [t] => t
  | t :: ts => t ++ ' ' :: joinSpace ts

/-- The room/occupancy table branch of `AgodaParser.parse`: on a
captured data line, set room type, number of rooms and (when a second
numeral is present) adult occupancy. -/
def roomUpdate (o : Option Str) (d : DataMap) : DataMap :=
  match o with
  | none => d
  | some line =>
    let (roomToks, numbers) := roomScan (pysplit (pystrip line)) ([], [])
    let d := if roomToks.isEmpty then d else dput kRoomType (.vStr (joinSpace roomToks)) d
    match numbers with
    | [] => d
    | n0 :: rest =>
      let d := dput kNoRoom (.vStr n0) d
      match rest with
      | n1 :: _ => dput kOccAdult (.vStr n1) d
      | [] => d

/-- Match attempt for the `From\s*-\s*To\s*Rates` anchor
(case-insensitive), returning the text after the match. -/
def tryFromTo (s : Str) : Option Str :=
  (dropLitCI "from".data s).bind (wsStar (fun r2 =>
    match r2 with
    | '-' :: r3 =>
      wsStar (fun r4 =>
        (dropLitCI "to".data r4).bind (wsStar (fun r6 =>
          dropLitCI "rates".data r6))) r3
    | _ => none))

/-- Match attempt for
`\bVND\b\s*\n\s*(\d{1,3}(?:,\d{3})+)(?:\.\d+)?` (case-insensitive): the
whitespace between `VND` and the numeral must contain a newline. -/
def tryVndNl (prev : Option Char) (s : Str) : Option Str :=
  if boundaryBefore prev then
    (dropLitCI "vnd".data s).bind (fun r =>
      if boundaryAfter r then
        let w := r.takeWhile isPySpace
        if hasChar '\n' w then (commaNumTok commaSep (r.drop w.length)).map (fun p => p.1)
        else none
      else none)
  else none

/-- `find_agoda_first_daily_rate` from `parser.py`. -/
def find_agoda_first_daily_rate (t : Str) : Str :=
  if t.isEmpty then []
  else
    match searchP tryVndNl none ((searchS tryFromTo t).getD t) with
    | some tok => tok ++ ' ' :: "VND".data
    | none => []

/-- Match attempt for
`\bVND\b\s*(\d{1,3}(?:,\d{3})+)(?:\.\d+)?` (case-insensitive). -/
def tryVndStar (prev : Option Char) (s : Str) : Option Str :=
  if boundaryBefore prev then
    (dropLitCI "vnd".data s).bind (fun r =>
      if boundaryAfter r then (commaNumTok commaSep (r.dropWhile isPySpace)).map (fun p => p.1)
      else none)
  else none

/-- Match attempt for `Reference sell rate.*?\bVND\b\s*(numeral)`
(case-insensitive, DOTALL): the lazy `.*?` is the leftmost later
position where the `VND` part matches; the previous-character seed is
the final (word) character of the label, so a boundary directly after
the label correctly fails. -/
def tryRef (s : Str) : Option Str :=
  (dropLitCI "reference sell rate".data s).bind (fun rest =>
    searchP tryVndStar (some 'e') rest)

/-- `find_agoda_total_gross` from `parser.py`. -/
def find_agoda_total_gross (t : Str) : Str :=
  if t.isEmpty then []
  else
    match searchS tryRef t with
    | some tok => tok ++ ' ' :: "VND".data
    | none => []

/-- Match attempt for
`Net rate\s*\(incl\. taxes & fees\)\s*\n\s*VND\s*\s*(numeral)`
(case-insensitive, no DOTALL): the whitespace after the parenthesis must
contain a newline; `VND` here carries no word boundaries. -/
def tryNet (s : Str) : Option Str :=
  (dropLitCI "net rate".data s).bind (wsStar (fun r =>
    match r with
    | '(' :: r2 =>
      (dropLitCI "incl. taxes & fees".data r2).bind (fun r3 =>
        match r3 with
        | ')' :: r4 =>
          let w := r4.takeWhile isPySpace
          if hasChar '\n' w then
            (dropLitCI "vnd".data (r4.drop w.length)).bind (fun r5 =>
              (commaNumTok commaSep (r5.dropWhile isPySpace)).map (fun p => p.1))
          else none
        | _ => none)
    | _ => none))

/-- Leftmost net-rate capture. -/
def searchNetRate (t : Str) : Option Str := searchS tryNet t

/-- The data map built by `AgodaParser.parse` on (already normalised)
text `t`, statement by statement. -/
def agodaData (t : Str) : DataMap :=
  let d : DataMap := []
  let d := dput kStatus (.vStr "Confirmed".data) d
  let d := dput kPrepaid (.vBool (searchPrepaid t)) d
  let d := dputIf (searchBookingId t) kBookingID .vStr d
  let d := dputIf (searchFirstName t) kFirst (fun g => .vStr (pytitle g)) d
  let d := dputIf (searchLastName t) kLast (fun g => .vStr (pytitle g)) d
  let d := dputIf (searchAgodaEmail t) kEmail .vStr d
  let booked := parse_vi_sent_datetime t
  let d := if booked.isEmpty then d else dput kBookedOn (.vStr booked) d
  let d := dputIf (searchCheckin t) kCheckin
    (fun g => .vStr (parse_month_day_year g.1 g.2.1 g.2.2)) d
  let d := dputIf (searchCheckout t) kCheckout
    (fun g => .vStr (parse_month_day_year g.1 g.2.1 g.2.2)) d
  let d := roomUpdate (searchRoomLine t) d
  let d := if (dget d kOccAdult).isSome then d else dputIf (searchAdult t) kOccAdult .vStr d
  let d := match searchChild t with
    | some g => dput kOccChild (.vStr g) d
    | none => dsetdefault kOccChild (.vStr "0".data) d
  let d := dsetdefault kOccAdult (.vStr "1".data) d
  let d := dsetdefault kNoRoom (.vStr "1".data) d
  let d := dsetdefault kSpecial (.vStr []) d
  let dr := find_agoda_first_daily_rate t
  let d := if dr.isEmpty then d else dput kDaily (.vStr dr) d
  let tg := find_agoda_total_gross t
  let d :=
    if tg.isEmpty then
      dputIf (searchNetRate t) kTotal (fun g => .vStr (g ++ ' ' :: "VND".data)) d
    else dput kTotal (.vStr tg) d
  let d := dput kAmount (.vStr []) d
  let d := dput kBilling (.vMap []) d
  d

/-- The Agoda pipeline on raw extracted text: normalisation (as done in
`AgodaParser.__init__`), extraction, and schema normalisation. -/
def agoda_parse (text : Str) : Except Unit DataMap :=
  ordered_output (agodaData (norm_text text))

/-! ### Expedia amount extraction (`find_expedia_amount`) -/

/-- The `CURRENCY_PATTERN` allow-list from `parser.py`. -/
def CURRENCIES : List Str :=
  [ "vnd".data, "usd".data, "eur".data, "jpy".data, "thb".data,
    "sgd".data, "aud".data, "gbp".data, "krw".data, "cny".data ]

/-- The currency alternation `(VND|USD|...)` (case-insensitive),
returning the matched text characters (as `group(2)` does). -/
def matchCur (s : Str) : Option Str :=
  match CURRENCIES.find? (fun c => (dropLitCI c s).isSome) with
  | some c => some (s.take c.length)
  | none => none

/-- The amount class `[\d,.]`. -/
def isAmtChar (c : Char) : Bool := isDig c || c = ',' || c = '.'

/-- The suffix `([\d,.]+)\s*(CUR)` of the Expedia amount patterns:
greedy amount capture, optional whitespace, then a currency code.  (No
backtracking arises: the three classes are pairwise disjoint.) -/
def amtCur (s : Str) : Option (Str × Str) :=
  let amt := s.takeWhile isAmtChar
  if amt.isEmpty then none
  else (matchCur ((s.drop amt.length).dropWhile isPySpace)).map (fun cur => (amt, cur))

/-- The label literal `Amount to Charge Expedia` (case-insensitive). -/
def expLabel : Str := "amount to charge expedia".data

/-- The optional group `(?:\s*Group)?`: try the `Group` branch first,
then fall back to skipping it (regex optional-group backtracking). -/
def optGroup (k : Str → Option α) (s : Str) : Option α :=
  match
    (match dropLitCI "group".data (s.dropWhile isPySpace) with
     | some r => k r
     | none => none) with
  | some r => some r
  | none => k s

/-- Match attempt for pattern 1:
`Amount to Charge Expedia(?:\s*Group)?\s*:\s*([\d,.]+)\s*(CUR)`
(case-insensitive, DOTALL: `\s` includes newlines). -/
def tryExp1 (s : Str) : Option (Str × Str) :=
  (dropLitCI expLabel s).bind (optGroup (fun r2 =>
    match r2.dropWhile isPySpace with
    | ':' :: r4 => amtCur (r4.dropWhile isPySpace)
    | _ => none))

/-- Match attempt for pattern 2:
`Amount to Charge Expedia(?:\s*Group)?\s*:\s*[\r\n ]+([\d,.]+)\s*(CUR)`:
the whitespace run after the colon must be nonempty and (after the
greedy `\s*` backtracks) end with a `[\r\n ]` character. -/
def tryExp2 (s : Str) : Option (Str × Str) :=
  (dropLitCI expLabel s).bind (optGroup (fun r2 =>
    match r2.dropWhile isPySpace with
    | ':' :: r4 =>
      let w := r4.takeWhile isPySpace
      match w.getLast? with
      | some c => if c = ' ' || c = '\r' || c = '\n' then amtCur (r4.drop w.length) else none
      | none => none
    | _ => none))

/-- Match attempt for pattern 3:
`Amount to Charge Expedia(?:\s*Group)?\s+([\d,.]+)\s*(CUR)`. -/
def tryExp3 (s : Str) : Option (Str × Str) :=
  (dropLitCI expLabel s).bind (optGroup (wsPlus amtCur))

/-- Leftmost match of the bare label, returning the text after it
(`anchor.end()`). -/
def expAnchor (t : Str) : Option Str := searchS (dropLitCI expLabel) t

/-- The lookahead `(?![\d,])`. -/
def lookOK : Str → Bool
  | [] => true
  | c :: _ => !(isDig c || c = ',')

/-- Greedy choice over the cumulative group parses: most groups first,
each checked against the trailing lookahead. -/
def pickGreedy : List (Str × Str) → Option Str
  | [] => none
  | p :: rest =>
    match pickGreedy rest with
    | some tok => some tok
    | none => if lookOK p.2 then some p.1 else none

/-- Separator class `[.,]` of the fallback numeral. -/
def dotComma (c : Char) : Bool := c = '.' || c = ','

/-- Alternative 1 of the fallback numeral,
`\d{1,3}(?:[.,]\d{3})+` followed by the `(?![\d,])` lookahead,
with greedy backtracking over both quantifiers. -/
def numAlt1 (s : Str) : Option Str :=
  greedyRange 1 3 isDig (fun ds r => (pickGreedy (grpsC dotComma r)).map (ds ++ ·)) s

/-- Alternative 2, `\d+` followed by the lookahead: descending greedy
lengths of the digit run (shorter alternatives leave a digit in the
lookahead, so only the full run can succeed, but the loop mirrors the
regex). -/
def numAlt2 (s : Str) : Option Str :=
  tryLens (fun ds r => if lookOK r then some ds else none) s 1
    (s.takeWhile isDig).length

/-- Match attempt for the fallback numeral
`(?<!\d)(\d{1,3}(?:[.,]\d{3})+|\d+)(?![\d,])` at one position. -/
def numAt (prev : Option Char) (s : Str) : Option Str :=
  if (match prev with | some c => isDig c | none => false) then none
  else
    match numAlt1 s with
    | some tok => some tok
    | none => numAlt2 s

/-- Leftmost fallback numeral in a window. -/
def numSearch (w : Str) : Option Str := searchP numAt none w

/-- `find_expedia_amount` from `parser.py`: the three amount+currency
patterns in order, then the bare-numeral fallback inside the 200
characters after the label. -/
def find_expedia_amount (t : Str) : Str :=
  match searchS tryExp1 t with
  | some (a, c) => a ++ ' ' :: c
  | none =>
    match searchS tryExp2 t with
    | some (a, c) => a ++ ' ' :: c
    | none =>
      match searchS tryExp3 t with
      | some (a, c) => a ++ ' ' :: c
      | none =>
        match expAnchor t with
        | some rest =>
          match numSearch (rest.take 200) with
          | some n => n
          | none => []
        | none => []

/-! ### Source detection (`process_pdf`) -/

/-- The two vendors the pipeline recognises. -/
inductive Vendor where
  | expedia
  | agoda
deriving DecidableEq, Repr

/-- The detection failure (`ValueError("Cannot identify OTA source ...")`). -/
inductive DetectError where
  | unrecognizedSource
deriving DecidableEq, Repr

/-- Vendor detection from `process_pdf`: on the lower-cased normalised
text, Expedia fingerprints first, then the Agoda fingerprint guarded by
a `booking id` label, else the unrecognised-source error. -/
def detect_source (t : Str) : Except DetectError Vendor :=
  let low := lowerStr t
  if hasSub "expedia".data low || hasSub "expediapartnercentral".data low then
    .ok .expedia
  else if hasSub "agoda".data low && hasSub "booking id".data low then
    .ok .agoda
  else .error .unrecognizedSource

/-! ### Expedia guest-name rule (modelled from the spec)

`parser.py` under `src/` contains no `Guest:` name extraction (its
`ExpediaParser` never sets the customer name fields); the rule below is
the guest-name logic of the repository's other parser variant, absent
from `src/`, reconstructed from the specification. -/

/-- Modelled from the spec: the known Expedia labels that terminate a
guest-name capture ("capture up to the next known label or newline");
the labels are those the spec lists for the Expedia extractor. -/
def expediaKnownLabels : List Str :=
  [ "Guest Email:".data, "Reservation ID:".data, "Booked on:".data,
    "Room Type Code:".data, "Room Type Name:".data ]

/-- Modelled from the spec: capture characters up to a newline or the
start of a known label. -/
def captureUpto (stops : List Str) : Str → Str
  | [] => []
  | c :: cs =>
    if c = '\n' then []
    else if stops.any (fun l => startsWithB l (c :: cs)) then []
    else c :: captureUpto stops cs

/-- Modelled from the spec: split a captured guest name on whitespace;
with two or more tokens, all but the last joined by single spaces form
the first name and the last token the last name; a single token becomes
the first name with an empty last name. -/
def splitGuestName (cap : Str) : Str × Str :=
  match pysplit cap with
  | [] => ([], [])
  | [x] => (x, [])
  | xs => (joinSpace xs.dropLast, xs.getLast?.getD [])

/-- Modelled from the spec: the leftmost `Guest:` label followed by a
capture up to the next known label or newline (stripped). -/
def guestCapture (t : Str) : Option Str :=
  searchS (fun s => (dropLit "Guest:".data s).map
    (fun r => pystrip (captureUpto expediaKnownLabels r))) t

/-- Modelled from the spec: the Expedia guest-name extraction,
`(Customer First Name, Customer Last Name)`. -/
def expediaGuestName (t : Str) : Option (Str × Str) :=
  (guestCapture t).map splitGuestName

/-! ### HTML rendering (`build_html`) -/

/-- Python `str(value)` for the values interpolated by the f-strings of
`build_html`.  (A mapping value is only ever held by the billing key,
which the row loop skips, so its `repr` form is not modelled.) -/
def pyStr : Value → Str
  | .vStr s => s
  | .vBool b => if b then "True".data else "False".data
  | .vMap _ => []

/-- The row loop of `build_html`: one `<tr>` per field in record order,
skipping the billing key; `''.join(rows)`. -/
def htmlRows : DataMap → Str
  | [] => []
  | (k, v) :: rest =>
    (if k = kBilling then []
     else "<tr><td>".data ++ k ++ "</td><td>".data ++ pyStr v ++ "</td></tr>".data) ++
    htmlRows rest

/-- The billing-row loop of `build_html`:
`data['Billing Details:'].get(subkey, '')` per `BILLING_ORDER` subkey. -/
def htmlBillRows (m : List (Str × Value)) : Str :=
  (BILLING_ORDER.map (fun sk =>
    "<tr><td>".data ++ sk ++ "</td><td>".data ++
    pyStr ((dget m sk).getD (.vStr [])) ++ "</td></tr>".data)).flatten

/-- The style block of the `build_html` template (Python's doubled
braces rendered as literal braces). -/
def htmlStyle : Str :=
  ("<style>\n" ++
   "body\x7bfont-family:system-ui,-apple-system,Segoe UI,Roboto,Arial,sans-serif;margin:24px;line-height:1.45\x7d\n" ++
   "h1\x7bfont-size:20px;margin:0 0 8px\x7d\n" ++
   ".badge\x7bdisplay:inline-block;padding:2px 8px;border-radius:999px;background:#fee2e2;color:#991b1b;\n" ++
   "       font-weight:700;font-size:12px;margin-left:6px\x7d\n" ++
   "table\x7bborder-collapse:collapse;min-width:720px;max-width:980px;box-shadow:0 2px 8px rgba(0,0,0,.06)\x7d\n" ++
   "td,th\x7bborder:1px solid #e5e7eb;padding:8px 10px;vertical-align:top\x7d\n" ++
   "td:first-child\x7bbackground:#f9fafb;font-weight:600;width:260px\x7d\n" ++
   "tfoot td\x7bborder:none;color:#6b7280;padding-top:10px\x7d\n" ++
   "</style>\n").data

/-- `build_html` from `parser.py`: render a record as a self-contained
HTML document.  Field values are interpolated verbatim into the markup.
Direct indexing of a missing billing key (`KeyError`) or `.get` on a
non-mapping billing value (`AttributeError`) is modelled as an error. -/
def build_html (data : DataMap) : Except Unit Str :=
  let statusStr := match dget data kStatus with | some v => pyStr v | none => []
  let bid := match dget data kBookingID with | some v => pyStr v | none => []
  match dget data kBilling with
  | some (.vMap m) =>
    .ok ("<!doctype html>\n<html lang=\"en\"><meta charset=\"utf-8\"><title>".data ++
         bid ++ "-report</title>\n".data ++
         htmlStyle ++
         "<h1>Normalized Booking <span class=\"badge\">".data ++ statusStr ++
         "</span></h1>\n<table><tbody>\n".data ++
         htmlRows data ++ "\n".data ++
         "<tr><th colspan=\"2\" style=\"text-align:left\">Billing Details</th></tr>\n".data ++
         htmlBillRows m ++ "\n".data ++
         "</tbody>\n<tfoot><tr><td colspan=\"2\">Source: OTA confirmation email PDF.</td></tr></tfoot>\n</table></html>".data)
  | some _ => .error ()
  | none => .error ()

/-! ### Statement helpers for the claims -/

/-- No two adjacent characters both satisfy `p` (no run of length two or
more of `p`-characters). -/
def noDouble (p : Char → Bool) : Str → Bool
  | c :: c' :: cs => !(p c && p c') && noDouble p (c' :: cs)
  | _ => true

/-- A string neither starts nor ends with whitespace. -/
def edgesOK (s : Str) : Bool :=
  (match s.head? with | some c => !isPySpace c | none => true) &&
  (match s.getLast? with | some c => !isPySpace c | none => true)

/-- A numeral token: nonempty, starts with a digit, and built only from
digits, commas and dots (in particular it carries no currency suffix). -/
def numTokOK (n : Str) : Bool :=
  (match n.head? with | some c => isDig c | none => false) && n.all isAmtChar

/-- A token free of thousands separators. -/
def sepFree (s : Str) : Bool := s.all (fun c => !(c = ',') && !(c = '.'))

/-- Test for a successful `Except` result. -/
def isOkE : Except ε α → Bool
  | .ok _ => true
  | .error _ => false

/-- Concrete partial record whose first-name field holds markup: input
of the claim-3 rendering scenario. -/
def c3data : DataMap :=
  [(kFirst, .vStr "<script>alert(1)</script>".data), (kBookingID, .vStr "777".data)]

/-- The claim-3 pipeline: normalise the record, then render it. -/
def c3render : Except Unit Str := (ordered_output c3data).bind build_html

/-- The rendered claim-3 document (empty on error). -/
def c3out : Str :=
  match c3render with
  | .ok s => s
  | .error _ => []

/-- The plain space character as a class. -/
def isSpc (c : Char) : Bool := c = ' '

/-! ## Theorems

First the generic facts about `ordered_output`, then the claims. -/

theorem dget_map_self {ks : List Str} {f : Str → Value} {k : Str} (hk : k ∈ ks) :
    dget (ks.map fun k => (k, f k)) k = some (f k) := by
  induction ks with
  | nil => cases hk
  | cons a l ih =>
    simp only [List.map_cons, dget]
    by_cases h : k = a
    · subst h; simp
    · rw [if_neg h]
      exact ih ((List.mem_cons.mp hk).resolve_left h)

theorem billing_sub_eq (data : DataMap) (h : billingOK data = true) :
    (if truthy ((dget data kBilling).getD (.vMap [])) then (dget data kBilling).getD (.vMap [])
     else .vMap []) = .vMap (billSrc data) := by
  unfold billingOK at h
  unfold billSrc
  cases hd : dget data kBilling with
  | none => simp [truthy]
  | some v =>
    rw [hd] at h
    cases v with
    | vStr s =>
      simp only at h
      simp [truthy, h]
    | vBool b =>
      simp only at h
      simp only [Bool.not_eq_true'] at h
      simp [truthy, h]
    | vMap m =>
      by_cases hm : m.isEmpty
      · have : m = [] := List.isEmpty_iff.mp hm
        subst this
        simp [truthy]
      · simp [truthy, hm]

theorem buildFields_eq (data : DataMap) (h : billingOK data = true) :
    ∀ ks : List Str, buildFields ks data = .ok (ks.map fun k => (k, evalField data k)) := by
  intro ks
  induction ks with
  | nil => rfl
  | cons k ks ih =>
    by_cases hk : k = kBilling
    · subst hk
      simp only [buildFields, if_pos rfl]
      rw [billing_sub_eq data h]
      simp only [ih, List.map_cons]
      simp only [evalField, if_pos rfl]
      rfl
    · simp only [buildFields, if_neg hk]
      rw [ih]
      simp only [List.map_cons, evalField, if_neg hk]
      rfl

theorem ordered_output_eq (data : DataMap) (h : billingOK data = true) :
    ordered_output data = .ok (FIELD_ORDER.map fun k => (k, evalField data k)) :=
  buildFields_eq data h FIELD_ORDER

theorem evalField_billing (data : DataMap) :
    evalField data kBilling = .vMap (billNorm (billSrc data)) := if_pos rfl

theorem evalField_other (data : DataMap) {k : Str} (h : k ≠ kBilling) :
    evalField data k = (dget data k).getD (defaultFor k) := if_neg h

theorem billNorm_keys (m : List (Str × Value)) :
    (billNorm m).map Prod.fst = BILLING_ORDER := by
  simp [billNorm, List.map_map, Function.comp_def]

theorem dget_billNorm (m : List (Str × Value)) {sk : Str} (hk : sk ∈ BILLING_ORDER) :
    dget (billNorm m) sk = some ((dget m sk).getD (.vStr [])) :=
  dget_map_self hk

theorem billNorm_idem (m : List (Str × Value)) : billNorm (billNorm m) = billNorm m :=
  calc billNorm (billNorm m)
      = BILLING_ORDER.map (fun sk => (sk, (dget (billNorm m) sk).getD (.vStr []))) := rfl
    _ = BILLING_ORDER.map (fun sk => (sk, (dget m sk).getD (.vStr []))) :=
        List.map_congr_left (fun sk hk => by rw [dget_billNorm m hk]; rfl)
    _ = billNorm m := rfl

/-- Claim C1 (counterexample): as stated over every input map the claim
fails — on the input binding `Billing Details:` to the (truthy) string
`"x"`, `ordered_output` does not return a record at all: the Python code
raises `AttributeError` on `sub.get`, modelled as `Except.error`. -/
theorem claim1_counterexample :
    ordered_output [(kBilling, .vStr "x".data)] = .error () := rfl

/-- Claim C1 (amended): for every input map whose `Billing Details:`
value, if present and truthy, is a sub-mapping (in particular for the
empty map and maps with extra keys), `ordered_output` returns a record
with exactly the fields of `FIELD_ORDER` in that order, whose billing
sub-mapping has exactly the subfields of `BILLING_ORDER` in that order;
every non-billing field absent from the input carries its default
(`False` for `Has Prepaid`, empty string otherwise), every billing
subfield absent from the billing source carries the empty string, and no
key outside the fixed sets appears. -/
theorem claim1_schema_complete (data : DataMap) (h : billingOK data = true) :
    ∃ r, ordered_output data = .ok r ∧
      r.map Prod.fst = FIELD_ORDER ∧
      (∀ k, k ∈ FIELD_ORDER → k ≠ kBilling → dget data k = none →
        dget r k = some (if k = kPrepaid then .vBool false else .vStr [])) ∧
      ∃ bm, dget r kBilling = some (.vMap bm) ∧
        bm.map Prod.fst = BILLING_ORDER ∧
        (∀ sk, sk ∈ BILLING_ORDER → dget (billSrc data) sk = none →
          dget bm sk = some (.vStr [])) := by
  refine ⟨FIELD_ORDER.map (fun k => (k, evalField data k)), ordered_output_eq data h, ?_, ?_, ?_⟩
  · simp [List.map_map, Function.comp_def]
  · intro k hk hkb hnone
    rw [dget_map_self hk]
    simp [evalField, if_neg hkb, hnone, defaultFor]
  · refine ⟨billNorm (billSrc data), ?_, billNorm_keys _, ?_⟩
    · rw [dget_map_self (show kBilling ∈ FIELD_ORDER by decide)]
      simp [evalField]
    · intro sk hsk hnone
      rw [dget_billNorm _ hsk, hnone]
      rfl

/-- Claim C1 (witness): the amended claim applied to the empty input map. -/
theorem claim1_witness :
    billingOK [] = true ∧
    (∃ r, ordered_output [] = .ok r ∧
      r.map Prod.fst = FIELD_ORDER ∧
      (∀ k, k ∈ FIELD_ORDER → k ≠ kBilling → dget [] k = none →
        dget r k = some (if k = kPrepaid then .vBool false else .vStr [])) ∧
      ∃ bm, dget r kBilling = some (.vMap bm) ∧
        bm.map Prod.fst = BILLING_ORDER ∧
        (∀ sk, sk ∈ BILLING_ORDER → dget (billSrc []) sk = none →
          dget bm sk = some (.vStr []))) :=
  ⟨rfl, claim1_schema_complete [] rfl⟩

/-- Claim C6 (counterexample): as stated over every input map the claim
fails — on the input binding `Billing Details:` to `True`,
`ordered_output` raises (`AttributeError` on `sub.get`) instead of
returning a record. -/
theorem claim6_counterexample :
    ordered_output [(kBilling, .vBool true)] = .error () := rfl

/-- Claim C6 (amended): for every input map whose `Billing Details:`
value, if present and truthy, is a sub-mapping, `ordered_output`
succeeds, and it is idempotent: applied to its own output it returns
that output unchanged. -/
theorem claim6_idempotent (data : DataMap) (h : billingOK data = true) :
    ∃ r, ordered_output data = .ok r ∧ ordered_output r = .ok r := by
  refine ⟨FIELD_ORDER.map (fun k => (k, evalField data k)), ordered_output_eq data h, ?_⟩
  set r := FIELD_ORDER.map (fun k => (k, evalField data k)) with hr
  have hGet : ∀ k, k ∈ FIELD_ORDER → dget r k = some (evalField data k) := by
    intro k hk
    rw [hr]
    exact dget_map_self hk
  have hBill : dget r kBilling = some (.vMap (billNorm (billSrc data))) := by
    rw [hGet kBilling (by decide), evalField_billing]
  have hOK : billingOK r = true := by
    unfold billingOK
    rw [hBill]
  rw [ordered_output_eq _ hOK]
  refine congrArg Except.ok (List.map_congr_left ?_)
  intro k hk
  by_cases hkb : k = kBilling
  · subst hkb
    have hsrc : billSrc r = billNorm (billSrc data) := by
      unfold billSrc
      rw [hBill]
      rfl
    rw [evalField_billing, evalField_billing, hsrc, billNorm_idem]
  · rw [evalField_other _ hkb, evalField_other _ hkb, hGet k hk, Option.getD_some,
      evalField_other _ hkb]

/-- Claim C6 (witness): the amended claim applied to a one-field map. -/
theorem claim6_witness :
    billingOK [(kPrepaid, .vBool true)] = true ∧
    (∃ r, ordered_output [(kPrepaid, .vBool true)] = .ok r ∧ ordered_output r = .ok r) :=
  ⟨rfl, claim6_idempotent [(kPrepaid, .vBool true)] rfl⟩

/-- Claim C2: source detection on the lower-cased normalised text tests
vendors in order — an Expedia fingerprint (`"expedia"` or
`"expediapartnercentral"`) selects the Expedia extractor; otherwise
`"agoda"` together with the literal `"booking id"` selects the Agoda
extractor; otherwise, and only then, detection raises the
unrecognised-source error (the `ValueError` of `process_pdf`). -/
theorem claim2_detection (t : Str) :
    ((hasSub "expedia".data (lowerStr t) ||
        hasSub "expediapartnercentral".data (lowerStr t)) = true →
      detect_source t = .ok .expedia) ∧
    ((hasSub "expedia".data (lowerStr t) ||
        hasSub "expediapartnercentral".data (lowerStr t)) = false →
      (hasSub "agoda".data (lowerStr t) && hasSub "booking id".data (lowerStr t)) = true →
      detect_source t = .ok .agoda) ∧
    ((hasSub "expedia".data (lowerStr t) ||
        hasSub "expediapartnercentral".data (lowerStr t)) = false →
      (hasSub "agoda".data (lowerStr t) && hasSub "booking id".data (lowerStr t)) = false →
      detect_source t = .error .unrecognizedSource) := by
  refine ⟨fun h1 => ?_, fun h1 h2 => ?_, fun h1 h2 => ?_⟩
  · simp [detect_source, h1]
  · simp [detect_source, h1, h2]
  · simp [detect_source, h1, h2]

/-- Claim C2 (witness): the three detection outcomes at concrete texts. -/
theorem claim2_witness :
    detect_source "Expedia itinerary 123".data = .ok .expedia ∧
    detect_source "AGODA mail: Booking ID 5".data = .ok .agoda ∧
    detect_source "plain text agoda".data = .error .unrecognizedSource :=
  ⟨(claim2_detection _).1 rfl, (claim2_detection _).2.1 rfl rfl,
    (claim2_detection _).2.2 rfl rfl⟩

/-- Claim C8: `parse_vi_sent_datetime` recognises a numeric `DD/MM/YYYY`
pattern and swaps day and month into `MM/DD/YYYY` order — on
`"Ngày T2 10/11/2025 10:51"` it returns `"11/10/2025"` — and it returns
the empty string, not an error, when neither of its two phrasings
occurs. -/
theorem claim8_vi_date :
    parse_vi_sent_datetime "Ngày T2 10/11/2025 10:51".data = "11/10/2025".data ∧
    (∀ t d m y, findNumericDMY t = some (d, m, y) →
      parse_vi_sent_datetime t = fmt2 m ++ '/' :: fmt2 d ++ '/' :: natStr y) ∧
    (∀ t, findNumericDMY t = none → findThang t = none →
      parse_vi_sent_datetime t = []) := by
  refine ⟨by decide, fun t d m y h => ?_, fun t h1 h2 => ?_⟩
  · by_cases he : t.isEmpty
    · rw [List.isEmpty_iff.mp he] at h
      have h0 : findNumericDMY ([] : Str) = none := rfl
      rw [h0] at h
      cases h
    · simp only [parse_vi_sent_datetime, he, Bool.false_eq_true, if_false, h]
  · by_cases he : t.isEmpty
    · simp [parse_vi_sent_datetime, he]
    · simp only [parse_vi_sent_datetime, he, Bool.false_eq_true, if_false, h1, h2]

/-- Claim C8 (witness): both branches of the claim at concrete inputs. -/
theorem claim8_witness :
    parse_vi_sent_datetime "hello".data = [] ∧
    parse_vi_sent_datetime "a 3/4/2025 b".data = fmt2 4 ++ '/' :: fmt2 3 ++ '/' :: natStr 2025 :=
  ⟨claim8_vi_date.2.2 _ rfl rfl, claim8_vi_date.2.1 _ 3 4 2025 rfl⟩

/-- Claim C10: `parse_vi_sent_datetime` performs no calendar-range
validation: on a text containing the US-format date `10/23/2025` it
returns `"23/10/2025"`, whose month component is 23 > 12, so a
non-empty result need not be a calendar-valid `MM/DD/YYYY` date. -/
theorem claim10_no_validation :
    parse_vi_sent_datetime "Sent: 10/23/2025 09:00".data = "23/10/2025".data ∧
    monthComponent (parse_vi_sent_datetime "Sent: 10/23/2025 09:00".data) = 23 ∧
    12 < monthComponent (parse_vi_sent_datetime "Sent: 10/23/2025 09:00".data) := by
  refine ⟨by decide, by decide, by decide⟩

set_option maxRecDepth 10000

/-- Claim C3 (code bug): `build_html` performs no escaping.  Rendering
the normalised record whose first-name value is
`<script>alert(1)</script>` succeeds and embeds the value verbatim — the
raw `<td><script>alert(1)</script></td>` appears in the document and no
escaped form (`&lt;`) does — so a captured value containing
markup-significant characters does structurally enter the HTML, contrary
to the claim and to the spec's escaping requirement. -/
theorem claim3_unescaped_html :
    isOkE c3render = true ∧
    hasSub "<td><script>alert(1)</script></td>".data c3out = true ∧
    hasSub "&lt;".data c3out = false := by
  refine ⟨rfl, by decide, by decide⟩

/-- Claim C4: for every text containing a `Guest:` label followed by a
name, the (spec-modelled) Expedia guest-name rule captures the name up
to the next known label or newline and splits it on whitespace — with
two or more tokens, all but the last (joined by spaces) become the
first name and the last token the last name; a single-token name yields
an empty last name. -/
theorem claim4_guest_name (t cap f l : Str) (h1 : guestCapture t = some cap)
    (h2 : expediaGuestName t = some (f, l)) :
    (2 ≤ (pysplit cap).length →
      f = joinSpace (pysplit cap).dropLast ∧ (pysplit cap).getLast? = some l) ∧
    ((pysplit cap).length = 1 → l = []) := by
  have hfl : splitGuestName cap = (f, l) := by
    unfold expediaGuestName at h2
    rw [h1] at h2
    simpa using h2
  have hsplit := hfl
  unfold splitGuestName at hsplit
  rcases hsp : pysplit cap with - | ⟨x, - | ⟨y, xs⟩⟩ <;> rw [hsp] at hsplit
  · exact ⟨fun hc => by simp at hc, fun hc => by simp at hc⟩
  · refine ⟨fun hc => by simp at hc, fun _ => ?_⟩
    simpa using (congrArg Prod.snd hsplit).symm
  · refine ⟨fun _ => ?_, fun hc => by simp at hc⟩
    simp only at hsplit
    refine ⟨(congrArg Prod.fst hsplit).symm, ?_⟩
    have hl := congrArg Prod.snd hsplit
    have hne : x :: y :: xs ≠ [] := by simp
    obtain ⟨g, hg⟩ :=
      Option.isSome_iff_exists.mp (List.getLast?_isSome.mpr hne)
    rw [hg]
    simp only [hg, Option.getD_some] at hl
    rw [hl]

/-- Claim C4 (witness): the rule on `Guest: John Michael Smith`. -/
theorem claim4_witness :
    "John Michael".data = joinSpace (pysplit "John Michael Smith".data).dropLast ∧
    (pysplit "John Michael Smith".data).getLast? = some "Smith".data :=
  (claim4_guest_name "Guest: John Michael Smith\nReservation ID: 5".data
    "John Michael Smith".data "John Michael".data "Smith".data rfl rfl).1 (by decide)

theorem searchP_some {f : Option Char → Str → Option α} {r : α} :
    ∀ {prev s}, searchP f prev s = some r → ∃ prev' s', f prev' s' = some r := by
  intro prev s
  induction s generalizing prev with
  | nil => exact fun h => ⟨prev, [], h⟩
  | cons c cs ih =>
    intro h
    unfold searchP at h
    cases hf : f prev (c :: cs) with
    | some x =>
      rw [hf] at h
      simp at h
      exact ⟨prev, c :: cs, by rw [hf, h]⟩
    | none => rw [hf] at h; exact ih h

theorem tryLens_some {k : Str → Str → Option α} {s : Str} {lo : ℕ} {r : α} :
    ∀ {i}, tryLens k s lo i = some r →
      ∃ j, lo ≤ j ∧ j ≤ i ∧ k (s.take j) (s.drop j) = some r := by
  intro i
  induction i with
  | zero =>
    intro h
    unfold tryLens at h
    by_cases hlo : lo = 0
    · rw [if_pos hlo] at h
      exact ⟨0, by omega, le_refl 0, h⟩
    · rw [if_neg hlo] at h
      cases h
  | succ i ih =>
    intro h
    unfold tryLens at h
    by_cases hlt : i + 1 < lo
    · rw [if_pos hlt] at h; cases h
    · rw [if_neg hlt] at h
      cases hk : k (s.take (i + 1)) (s.drop (i + 1)) with
      | some x =>
        rw [hk] at h
        simp at h
        exact ⟨i + 1, by omega, le_refl _, by rw [hk, h]⟩
      | none =>
        rw [hk] at h
        obtain ⟨j, h1, h2, h3⟩ := ih h
        exact ⟨j, h1, by omega, h3⟩

theorem take_all_of_le_takeWhile {cls : Char → Bool} :
    ∀ {s : Str} {j : ℕ}, j ≤ (s.takeWhile cls).length → (s.take j).all cls = true := by
  intro s
  induction s with
  | nil => intro j _; simp
  | cons c cs ih =>
    intro j hj
    cases j with
    | zero => simp
    | succ j =>
      by_cases hc : cls c
      · rw [List.takeWhile_cons_of_pos hc] at hj
        simp only [List.length_cons, Nat.succ_le_succ_iff] at hj
        simp [hc, ih hj]
      · rw [List.takeWhile_cons_of_neg hc] at hj
        simp at hj

theorem greedyRange_some {lo hi : ℕ} {cls : Char → Bool} {k : Str → Str → Option α}
    {s : Str} {r : α} (h : greedyRange lo hi cls k s = some r) :
    ∃ ds rest, k ds rest = some r ∧ ds.all cls = true ∧ lo ≤ ds.length := by
  unfold greedyRange at h
  obtain ⟨j, h1, h2, h3⟩ := tryLens_some h
  refine ⟨s.take j, s.drop j, h3, ?_, ?_⟩
  · exact take_all_of_le_takeWhile (le_trans h2 (min_le_right _ _))
  · have hlen : (s.take j).length = min j s.length := List.length_take j s
    have : j ≤ s.length :=
      le_trans h2 (le_trans (min_le_right _ _) (List.takeWhile_sublist _).length_le)
    omega

theorem grpsC_mem_shape {sepOK : Char → Bool} :
    ∀ (s : Str) {tok rest : Str}, (tok, rest) ∈ grpsC sepOK s →
      tok ≠ [] ∧ tok.all (fun c => isDig c || sepOK c) = true
  | [], tok, rest => by intro h; cases h
  | [_], tok, rest => by intro h; cases h
  | [_, _], tok, rest => by intro h; cases h
  | [_, _, _], tok, rest => by intro h; cases h
  | c :: a :: b :: d :: r, tok, rest => by
    intro h
    unfold grpsC at h
    by_cases hcls : sepOK c && isDig a && isDig b && isDig d
    · rw [if_pos hcls] at h
      simp only [Bool.and_eq_true] at hcls
      rcases List.mem_cons.mp h with heq | hmem
      · cases heq
        refine ⟨by simp, ?_⟩
        simp [hcls.1.1.1, hcls.1.1.2, hcls.1.2, hcls.2]
      · obtain ⟨⟨tok', rest'⟩, hmem', heq⟩ := List.mem_map.mp hmem
        cases heq
        obtain ⟨h1, h2⟩ := grpsC_mem_shape r hmem'
        refine ⟨by simp, ?_⟩
        simp only [List.all_cons, List.all_append] at h2 ⊢
        simp [hcls.1.1.1, hcls.1.1.2, hcls.1.2, hcls.2, h2]
    · rw [if_neg hcls] at h
      cases h

theorem pickGreedy_mem : ∀ {l : List (Str × Str)} {tok : Str},
    pickGreedy l = some tok → ∃ rest, (tok, rest) ∈ l := by
  intro l
  induction l with
  | nil => intro tok h; cases h
  | cons p rest ih =>
    intro tok h
    unfold pickGreedy at h
    cases hp : pickGreedy rest with
    | some x =>
      rw [hp] at h
      simp at h
      obtain ⟨r', hr'⟩ := ih (by rw [hp, h])
      exact ⟨r', List.mem_cons_of_mem _ hr'⟩
    | none =>
      rw [hp] at h
      by_cases hl : lookOK p.2
      · rw [if_pos hl] at h
        cases h
        exact ⟨p.2, by simp⟩
      · rw [if_neg hl] at h
        cases h

theorem all_imp {p q : Char → Bool} (h : ∀ c, p c = true → q c = true) :
    ∀ {s : Str}, s.all p = true → s.all q = true := by
  intro s hs
  simp only [List.all_eq_true] at hs ⊢
  exact fun c hc => h c (hs c hc)

theorem numAlt1_shape {s : Str} {n : Str} (h : numAlt1 s = some n) : numTokOK n = true := by
  unfold numAlt1 at h
  obtain ⟨ds, rest, hk, hall, hlen⟩ := greedyRange_some h
  cases hp : pickGreedy (grpsC dotComma rest) with
  | none => rw [hp] at hk; cases hk
  | some tok =>
    rw [hp] at hk
    simp at hk
    obtain ⟨rest', hmem⟩ := pickGreedy_mem hp
    obtain ⟨hne, htok⟩ := grpsC_mem_shape _ hmem
    rw [← hk]
    cases ds with
    | nil => simp at hlen
    | cons c ds' =>
      simp only [List.all_cons, Bool.and_eq_true] at hall
      unfold numTokOK
      simp only [List.cons_append, List.head?_cons, List.all_cons, List.all_append]
      have hds' : ds'.all isAmtChar = true :=
        all_imp (fun c hc => by simp [isAmtChar, hc]) hall.2
      have htok' : tok.all isAmtChar = true := by
        refine all_imp (fun c hc => ?_) htok
        simp only [Bool.or_eq_true] at hc
        rcases hc with hc | hc
        · simp [isAmtChar, hc]
        · unfold dotComma at hc
          simp only [Bool.or_eq_true, decide_eq_true_eq] at hc
          rcases hc with hc | hc <;> simp [isAmtChar, hc]
      simp [isAmtChar, hall.1, hds', htok']

theorem numAlt2_shape {s : Str} {n : Str} (h : numAlt2 s = some n) : numTokOK n = true := by
  unfold numAlt2 at h
  obtain ⟨j, h1, h2, h3⟩ := tryLens_some h
  by_cases hl : lookOK (s.drop j)
  · rw [if_pos hl] at h3
    have hn : s.take j = n := by simpa using h3
    have hall : (s.take j).all isDig = true := take_all_of_le_takeWhile h2
    have hjs : j ≤ s.length := le_trans h2 (List.takeWhile_sublist _).length_le
    rw [← hn]
    cases ht : s.take j with
    | nil =>
      have : (s.take j).length = 0 := by rw [ht]; rfl
      rw [List.length_take] at this
      omega
    | cons c cs =>
      rw [ht] at hall
      simp only [List.all_cons, Bool.and_eq_true] at hall
      unfold numTokOK
      simp only [List.head?_cons, List.all_cons]
      have : cs.all isAmtChar = true := all_imp (fun c hc => by simp [isAmtChar, hc]) hall.2
      simp [isAmtChar, hall.1, this]
  · rw [if_neg hl] at h3
    cases h3

theorem numAt_alts {s n : Str}
    (h : (match numAlt1 s with | some tok => some tok | none => numAlt2 s) = some n) :
    numTokOK n = true := by
  cases h1 : numAlt1 s with
  | some tok =>
    rw [h1] at h
    simp at h
    exact h ▸ numAlt1_shape h1
  | none =>
    rw [h1] at h
    exact numAlt2_shape h

theorem numAt_shape {prev : Option Char} {s n : Str} (h : numAt prev s = some n) :
    numTokOK n = true := by
  cases prev with
  | none =>
    unfold numAt at h
    simp only [Bool.false_eq_true, if_false] at h
    exact numAt_alts h
  | some c =>
    unfold numAt at h
    by_cases hd : isDig c = true
    · rw [if_pos hd] at h
      cases h
    · rw [if_neg hd] at h
      exact numAt_alts h

theorem numSearch_shape {w n : Str} (h : numSearch w = some n) : numTokOK n = true := by
  obtain ⟨prev', s', h'⟩ := searchP_some h
  exact numAt_shape h'

/-- Claim C5 (counterexample): on a text where the label is followed (in
the fallback window) only by the bare numeral `42` with no currency, the
extraction returns `"42"`, a numeral with no thousands separator — the
claim as stated (first numeral *containing thousands separators*, else
an empty field) would require the empty string here. -/
theorem claim5_counterexample :
    find_expedia_amount "Amount to Charge Expedia: see 42 below".data = "42".data ∧
    sepFree "42".data = true := by
  refine ⟨by decide, by decide⟩

/-- Claim C5 (amended): the Expedia amount extraction tries the three
amount+currency patterns in order of decreasing strictness; if none
match, it scans only the 200 characters following the label and returns
the first numeral found there — a thousands-separated numeral or a bare
digit run — with no currency suffix (every fallback result is a nonempty
digit-led token of digits, commas and dots); if nothing matches, the
field is left empty. -/
theorem claim5_amount_tiers :
    (∀ t a c, searchS tryExp1 t = some (a, c) →
      find_expedia_amount t = a ++ ' ' :: c) ∧
    (∀ t a c, searchS tryExp1 t = none → searchS tryExp2 t = some (a, c) →
      find_expedia_amount t = a ++ ' ' :: c) ∧
    (∀ t a c, searchS tryExp1 t = none → searchS tryExp2 t = none →
      searchS tryExp3 t = some (a, c) → find_expedia_amount t = a ++ ' ' :: c) ∧
    (∀ t, searchS tryExp1 t = none → searchS tryExp2 t = none → searchS tryExp3 t = none →
      find_expedia_amount t =
        (match expAnchor t with
         | some rest => (numSearch (rest.take 200)).getD []
         | none => [])) ∧
    (∀ w n, numSearch w = some n → numTokOK n = true) := by
  refine ⟨fun t a c h1 => ?_, fun t a c h1 h2 => ?_, fun t a c h1 h2 h3 => ?_,
    fun t h1 h2 h3 => ?_, fun w n h => numSearch_shape h⟩
  · unfold find_expedia_amount
    rw [h1]
  · unfold find_expedia_amount
    rw [h1, h2]
  · unfold find_expedia_amount
    rw [h1, h2, h3]
  · unfold find_expedia_amount
    rw [h1, h2, h3]
    cases ha : expAnchor t with
    | none => rfl
    | some rest =>
      simp only []
      cases hn : numSearch (rest.take 200) <;> rfl

/-- Claim C5 (witness): pattern tier one and the fallback tier at
concrete inputs. -/
theorem claim5_witness :
    find_expedia_amount "Amount to Charge Expedia: 1,234,567 VND".data =
      "1,234,567".data ++ ' ' :: "VND".data ∧
    numTokOK "1,234".data = true :=
  ⟨(claim5_amount_tiers.1 "Amount to Charge Expedia: 1,234,567 VND".data
      "1,234,567".data "VND".data rfl),
    claim5_amount_tiers.2.2.2.2 " ref 1,234 x".data "1,234".data rfl⟩

/-! ### Whitespace-normalisation lemmas (claim C7) -/

theorem noDouble_tail {p : Char → Bool} {a : Char} {l : Str}
    (h : noDouble p (a :: l) = true) : noDouble p l = true := by
  cases l with
  | nil => rfl
  | cons b l' =>
    unfold noDouble at h
    simp only [Bool.and_eq_true] at h
    exact h.2

theorem noDouble_cons_of {p : Char → Bool} {a : Char} {l : Str}
    (hl : noDouble p l = true) (hh : ∀ b, l.head? = some b → (p a && p b) = false) :
    noDouble p (a :: l) = true := by
  cases l with
  | nil => rfl
  | cons b l' =>
    unfold noDouble
    rw [hh b rfl, hl]
    rfl

theorem collapseRuns_cons_nonp {p : Char → Bool} {r c : Char} {cs : Str}
    (hc : p c = false) : collapseRuns p r (c :: cs) = c :: collapseRuns p r cs := by
  cases cs with
  | nil => simp [collapseRuns, hc]
  | cons c' cs' => simp [collapseRuns, hc]

theorem collapseRuns_head_p {p : Char → Bool} {r : Char} :
    ∀ {cs : Str} {c : Char}, p c = true →
      ∃ tl, collapseRuns p r (c :: cs) = r :: tl := by
  intro cs
  induction cs with
  | nil => intro c hc; exact ⟨[], by simp [collapseRuns, hc]⟩
  | cons c' cs' ih =>
    intro c hc
    by_cases hc' : p c' = true
    · obtain ⟨tl, htl⟩ := ih hc'
      exact ⟨tl, by simp only [collapseRuns, hc, hc', if_true]; exact htl⟩
    · exact ⟨collapseRuns p r (c' :: cs'),
        by simp [collapseRuns, hc, hc']⟩

theorem noDouble_collapseRuns_self {p : Char → Bool} {r : Char} :
    ∀ s : Str, noDouble p (collapseRuns p r s) = true
  | [] => rfl
  | [c] => by
    cases hc : p c <;> simp [collapseRuns, hc, noDouble]
  | c :: c' :: cs' => by
    have ih := @noDouble_collapseRuns_self p r (c' :: cs')
    cases hc : p c with
    | false =>
      simp only [collapseRuns, hc, Bool.false_eq_true, if_false]
      refine noDouble_cons_of ih ?_
      intro b _
      simp [hc]
    | true =>
      cases hc' : p c' with
      | true =>
        simp only [collapseRuns, hc, hc', if_true]
        exact ih
      | false =>
        simp only [collapseRuns, hc, hc', if_true, Bool.false_eq_true, if_false]
        rw [collapseRuns_cons_nonp hc'] at ih ⊢
        unfold noDouble
        rw [hc']
        simpa using ih

theorem noDouble_collapseRuns_other {p q : Char → Bool} {r : Char} (hr : q r = false) :
    ∀ s : Str, noDouble q s = true → noDouble q (collapseRuns p r s) = true
  | [] => fun _ => rfl
  | [c] => by
    intro _
    cases hc : p c <;> simp [collapseRuns, hc, noDouble]
  | c :: c' :: cs' => by
    intro h
    have htail : noDouble q (c' :: cs') = true := noDouble_tail h
    have ih := @noDouble_collapseRuns_other p q r hr (c' :: cs') htail
    cases hc : p c with
    | true =>
      cases hc' : p c' with
      | true =>
        simp only [collapseRuns, hc, hc', if_true]
        exact ih
      | false =>
        simp only [collapseRuns, hc, hc', if_true, Bool.false_eq_true, if_false]
        refine noDouble_cons_of ih ?_
        intro b _
        simp [hr]
    | false =>
      simp only [collapseRuns, hc, Bool.false_eq_true, if_false]
      refine noDouble_cons_of ih ?_
      intro b hb
      cases hc' : p c' with
      | true =>
        obtain ⟨tl, htl⟩ := collapseRuns_head_p hc'
        rw [htl] at hb
        cases hb
        simp [hr]
      | false =>
        rw [collapseRuns_cons_nonp hc'] at hb
        cases hb
        unfold noDouble at h
        simp only [Bool.and_eq_true] at h
        have h1 := h.1
        cases hqq : (q c && q c') with
        | false => rfl
        | true => rw [hqq] at h1; cases h1

theorem mem_collapseRuns {p : Char → Bool} {r : Char} :
    ∀ (s : Str) {c : Char}, c ∈ collapseRuns p r s → c = r ∨ c ∈ s
  | [], c => by intro h; cases h
  | [a], c => by
    intro h
    cases ha : p a <;> simp [collapseRuns, ha] at h <;> simp [h]
  | a :: a' :: cs', c => by
    intro h
    cases ha : p a with
    | true =>
      cases ha' : p a' with
      | true =>
        simp only [collapseRuns, ha, ha', if_true] at h
        rcases mem_collapseRuns _ h with h | h
        · exact Or.inl h
        · exact Or.inr (List.mem_cons_of_mem _ h)
      | false =>
        simp only [collapseRuns, ha, ha', if_true, Bool.false_eq_true, if_false] at h
        rcases List.mem_cons.mp h with h | h
        · exact Or.inl h
        · rcases mem_collapseRuns _ h with h | h
          · exact Or.inl h
          · exact Or.inr (List.mem_cons_of_mem _ h)
    | false =>
      simp only [collapseRuns, ha, Bool.false_eq_true, if_false] at h
      rcases List.mem_cons.mp h with h | h
      · exact Or.inr (h ▸ List.mem_cons_self _ _)
      · rcases mem_collapseRuns _ h with h | h
        · exact Or.inl h
        · exact Or.inr (List.mem_cons_of_mem _ h)

theorem mem_collapseRuns_p {p : Char → Bool} {r : Char} :
    ∀ (s : Str) {c : Char}, c ∈ collapseRuns p r s → p c = true → c = r
  | [], c => by intro h; cases h
  | [a], c => by
    intro h hpc
    cases ha : p a with
    | true =>
      simp [collapseRuns, ha] at h
      exact h
    | false =>
      simp [collapseRuns, ha] at h
      subst h
      rw [ha] at hpc
      cases hpc
  | a :: a' :: cs', c => by
    intro h hpc
    cases ha : p a with
    | true =>
      cases ha' : p a' with
      | true =>
        simp only [collapseRuns, ha, ha', if_true] at h
        exact mem_collapseRuns_p _ h hpc
      | false =>
        simp only [collapseRuns, ha, ha', if_true, Bool.false_eq_true, if_false] at h
        rcases List.mem_cons.mp h with h | h
        · exact h
        · exact mem_collapseRuns_p _ h hpc
    | false =>
      simp only [collapseRuns, ha, Bool.false_eq_true, if_false] at h
      rcases List.mem_cons.mp h with h | h
      · subst h
        rw [ha] at hpc
        cases hpc
      · exact mem_collapseRuns_p _ h hpc

theorem collapseRuns_id {p : Char → Bool} {r : Char} :
    ∀ s : Str, noDouble p s = true → (∀ c ∈ s, p c = true → c = r) →
      collapseRuns p r s = s
  | [] => fun _ _ => rfl
  | [c] => by
    intro _ hmem
    cases hc : p c with
    | false => simp [collapseRuns, hc]
    | true => simp [collapseRuns, hc, (hmem c (by simp) hc).symm]
  | c :: c' :: cs' => by
    intro hnd hmem
    have htail : collapseRuns p r (c' :: cs') = c' :: cs' :=
      collapseRuns_id (c' :: cs') (noDouble_tail hnd)
        (fun x hx hp => hmem x (List.mem_cons_of_mem _ hx) hp)
    cases hc : p c with
    | false => simp [collapseRuns, hc, htail]
    | true =>
      cases hc' : p c' with
      | true =>
        unfold noDouble at hnd
        rw [hc, hc'] at hnd
        cases hnd
      | false =>
        simp only [collapseRuns, hc, hc', if_true, Bool.false_eq_true, if_false, htail]
        rw [(hmem c (by simp) hc).symm]

theorem noDouble_dropWhile {p q : Char → Bool} :
    ∀ s : Str, noDouble q s = true → noDouble q (s.dropWhile p) = true := by
  intro s
  induction s with
  | nil => intro _; rfl
  | cons c cs ih =>
    intro h
    by_cases hc : p c
    · rw [List.dropWhile_cons_of_pos hc]
      exact ih (noDouble_tail h)
    · rw [List.dropWhile_cons_of_neg hc]
      exact h

theorem head?_dropWhile {p : Char → Bool} :
    ∀ {s : Str} {c : Char}, (s.dropWhile p).head? = some c → p c = false := by
  intro s
  induction s with
  | nil => intro c h; cases h
  | cons a cs ih =>
    intro c h
    by_cases ha : p a
    · rw [List.dropWhile_cons_of_pos ha] at h
      exact ih h
    · rw [List.dropWhile_cons_of_neg ha] at h
      cases h
      exact Bool.of_not_eq_true ha

theorem mem_dropWhile {p : Char → Bool} :
    ∀ {s : Str} {c : Char}, c ∈ s.dropWhile p → c ∈ s := by
  intro s
  induction s with
  | nil => intro c h; cases h
  | cons a cs ih =>
    intro c h
    by_cases ha : p a
    · rw [List.dropWhile_cons_of_pos ha] at h
      exact List.mem_cons_of_mem _ (ih h)
    · rw [List.dropWhile_cons_of_neg ha] at h
      exact h

theorem dropWhile_of_head {p : Char → Bool} {s : Str}
    (h : ∀ c, s.head? = some c → p c = false) : s.dropWhile p = s := by
  cases s with
  | nil => rfl
  | cons c cs => exact List.dropWhile_cons_of_neg (by simp [h c rfl])

theorem dropEndWhile_append {p : Char → Bool} :
    ∀ s : Str, ∃ t, s = dropEndWhile p s ++ t := by
  intro s
  induction s with
  | nil => exact ⟨[], rfl⟩
  | cons c cs ih =>
    obtain ⟨t, ht⟩ := ih
    cases hd : dropEndWhile p cs with
    | nil =>
      cases hc : p c with
      | true => exact ⟨c :: cs, by simp [dropEndWhile, hd, hc]⟩
      | false =>
        refine ⟨t, ?_⟩
        rw [hd] at ht
        simp only [List.nil_append] at ht
        subst ht
        simp [dropEndWhile, hd, hc]
    | cons x xs =>
      refine ⟨t, ?_⟩
      rw [hd] at ht
      simp only [dropEndWhile, hd]
      rw [List.cons_append, ← ht]

theorem noDouble_append_left {q : Char → Bool} :
    ∀ (l t : Str), noDouble q (l ++ t) = true → noDouble q l = true
  | [], _ => fun _ => rfl
  | [_], _ => fun _ => rfl
  | a :: b :: l', t => by
    intro h
    rw [List.cons_append, List.cons_append] at h
    unfold noDouble at h ⊢
    simp only [Bool.and_eq_true] at h ⊢
    refine ⟨h.1, noDouble_append_left (b :: l') t ?_⟩
    rw [List.cons_append]
    exact h.2

theorem noDouble_dropEndWhile {p q : Char → Bool} {s : Str}
    (h : noDouble q s = true) : noDouble q (dropEndWhile p s) = true := by
  obtain ⟨t, ht⟩ := @dropEndWhile_append p s
  rw [ht] at h
  exact noDouble_append_left _ _ h

theorem mem_dropEndWhile {p : Char → Bool} {s : Str} {c : Char}
    (h : c ∈ dropEndWhile p s) : c ∈ s := by
  obtain ⟨t, ht⟩ := @dropEndWhile_append p s
  rw [ht]
  exact List.mem_append_left _ h

theorem getLast?_dropEndWhile {p : Char → Bool} :
    ∀ {s : Str} {c : Char}, (dropEndWhile p s).getLast? = some c → p c = false := by
  intro s
  induction s with
  | nil => intro c h; cases h
  | cons a cs ih =>
    intro c h
    cases hd : dropEndWhile p cs with
    | nil =>
      simp only [dropEndWhile, hd] at h
      cases ha : p a with
      | true => rw [ha] at h; simp at h
      | false =>
        rw [ha] at h
        simp only [Bool.false_eq_true, if_false] at h
        simp only [List.getLast?_singleton, Option.some.injEq] at h
        rw [← h]
        exact ha
    | cons x xs =>
      simp only [dropEndWhile, hd] at h
      rw [List.getLast?_cons_cons] at h
      rw [← hd] at h
      exact ih h

theorem dropEndWhile_of_getLast {p : Char → Bool} :
    ∀ {s : Str}, (∀ c, s.getLast? = some c → p c = false) → dropEndWhile p s = s := by
  intro s
  induction s with
  | nil => intro _; rfl
  | cons a cs ih =>
    intro h
    cases cs with
    | nil =>
      have ha := h a (by rfl)
      simp [dropEndWhile, ha]
    | cons b cs' =>
      have htail : dropEndWhile p (b :: cs') = b :: cs' := by
        refine ih ?_
        intro c hc
        refine h c ?_
        rw [List.getLast?_cons_cons]
        exact hc
      show (match dropEndWhile p (b :: cs') with
        | [] => if p a = true then [] else [a]
        | r => a :: r) = a :: b :: cs'
      rw [htail]

theorem head?_dropEndWhile {p : Char → Bool} {s : Str} {c : Char}
    (h : (dropEndWhile p s).head? = some c) : s.head? = some c := by
  cases s with
  | nil => cases h
  | cons a cs =>
    cases hd : dropEndWhile p cs with
    | nil =>
      simp only [dropEndWhile, hd] at h
      cases ha : p a with
      | true => rw [ha] at h; simp at h
      | false =>
        rw [ha] at h
        simp only [Bool.false_eq_true, if_false, List.head?_cons] at h
        simpa using h
    | cons x xs =>
      simp only [dropEndWhile, hd, List.head?_cons] at h
      simpa using h

theorem pystrip_head {s : Str} {c : Char} (h : (pystrip s).head? = some c) :
    isPySpace c = false :=
  head?_dropWhile (head?_dropEndWhile h)

theorem pystrip_last {s : Str} {c : Char} (h : (pystrip s).getLast? = some c) :
    isPySpace c = false :=
  getLast?_dropEndWhile h

theorem noDouble_pystrip {q : Char → Bool} {s : Str} (h : noDouble q s = true) :
    noDouble q (pystrip s) = true :=
  noDouble_dropEndWhile (noDouble_dropWhile _ h)

theorem mem_pystrip {s : Str} {c : Char} (h : c ∈ pystrip s) : c ∈ s :=
  mem_dropWhile (mem_dropEndWhile h)

theorem pystrip_id {s : Str} (hh : ∀ c, s.head? = some c → isPySpace c = false)
    (hl : ∀ c, s.getLast? = some c → isPySpace c = false) : pystrip s = s := by
  unfold pystrip
  rw [dropWhile_of_head hh]
  exact dropEndWhile_of_getLast hl

theorem map_self_of {f : Char → Char} :
    ∀ {s : Str}, (∀ c ∈ s, f c = c) → s.map f = s := by
  intro s
  induction s with
  | nil => intro _; rfl
  | cons c cs ih =>
    intro h
    rw [List.map_cons, h c (by simp), ih (fun x hx => h x (List.mem_cons_of_mem _ hx))]

theorem hasChar_eq_true_iff {c : Char} {s : Str} : hasChar c s = true ↔ c ∈ s := by
  unfold hasChar
  simp only [List.any_eq_true, decide_eq_true_eq]
  constructor
  · rintro ⟨x, hx, rfl⟩
    exact hx
  · intro h
    exact ⟨c, h, rfl⟩

theorem noDouble_mono {p q : Char → Bool} (hpq : ∀ c, q c = true → p c = true) :
    ∀ {s : Str}, noDouble p s = true → noDouble q s = true
  | [] => fun _ => rfl
  | [_] => fun _ => rfl
  | a :: b :: l => by
    intro h
    unfold noDouble at h ⊢
    simp only [Bool.and_eq_true] at h ⊢
    refine ⟨?_, noDouble_mono hpq h.2⟩
    have h1 := h.1
    cases hqa : q a with
    | false => simp
    | true =>
      cases hqb : q b with
      | false => simp
      | true =>
        rw [hpq a hqa, hpq b hqb] at h1
        cases h1

/-- Claim C7: text normalisation is idempotent, and for every input its
output contains no run of two or more consecutive spaces, no run of two
or more consecutive newlines, no non-breaking-space character, and no
leading or trailing whitespace. -/
theorem claim7_norm_text (s : Str) :
    norm_text (norm_text s) = norm_text s ∧
    noDouble isSpc (norm_text s) = true ∧
    noDouble isNLc (norm_text s) = true ∧
    hasChar nbsp (norm_text s) = false ∧
    edgesOK (norm_text s) = true := by
  by_cases hs : s.isEmpty
  · simp only [norm_text, hs, if_true]
    exact ⟨rfl, rfl, rfl, rfl, rfl⟩
  · have norm_ne : ∀ t : Str, t.isEmpty = false →
        norm_text t =
          pystrip (collapseRuns isNLc '\n' (collapseRuns isST ' ' (t.map nbspToSpace))) := by
      intro t ht
      simp [norm_text, ht]
    have hN : norm_text s =
        pystrip (collapseRuns isNLc '\n' (collapseRuns isST ' ' (s.map nbspToSpace))) :=
      norm_ne s (by simpa using hs)
    have hST_B : noDouble isST
        (collapseRuns isNLc '\n' (collapseRuns isST ' ' (s.map nbspToSpace))) = true :=
      noDouble_collapseRuns_other (by decide) _ (noDouble_collapseRuns_self _)
    have hST_N : noDouble isST (norm_text s) = true := by
      rw [hN]
      exact noDouble_pystrip hST_B
    have hSpc : noDouble isSpc (norm_text s) = true := by
      refine noDouble_mono (fun c hc => ?_) hST_N
      unfold isSpc at hc
      unfold isST
      simp only [decide_eq_true_eq] at hc
      simp [hc]
    have hNL_N : noDouble isNLc (norm_text s) = true := by
      rw [hN]
      exact noDouble_pystrip (noDouble_collapseRuns_self _)
    have hmemN : ∀ c, c ∈ norm_text s → c ∈ s.map nbspToSpace ∨ c = ' ' ∨ c = '\n' := by
      intro c hc
      rw [hN] at hc
      have h1 := mem_pystrip hc
      rcases mem_collapseRuns _ h1 with h | h
      · exact Or.inr (Or.inr h)
      rcases mem_collapseRuns _ h with h | h
      · exact Or.inr (Or.inl h)
      · exact Or.inl h
    have hnbsp : hasChar nbsp (norm_text s) = false := by
      cases hh : hasChar nbsp (norm_text s) with
      | false => rfl
      | true =>
        exfalso
        have hin := hasChar_eq_true_iff.mp hh
        rcases hmemN _ hin with h | h | h
        · obtain ⟨a, _, ha⟩ := List.mem_map.mp h
          by_cases hna : a = nbsp
          · rw [hna] at ha
            exact absurd ha (by decide)
          · unfold nbspToSpace at ha
            rw [if_neg hna] at ha
            exact hna ha
        · exact absurd h (by decide)
        · exact absurd h (by decide)
    have hST_chars : ∀ c ∈ norm_text s, isST c = true → c = ' ' := by
      intro c hc hst
      rw [hN] at hc
      have h1 := mem_pystrip hc
      rcases mem_collapseRuns _ h1 with h | h
      · rw [h] at hst
        exact absurd hst (by decide)
      · exact mem_collapseRuns_p _ h hst
    have hedge : edgesOK (norm_text s) = true := by
      rw [hN]
      unfold edgesOK
      have h1 : (match (pystrip (collapseRuns isNLc '\n'
          (collapseRuns isST ' ' (s.map nbspToSpace)))).head? with
          | some c => !isPySpace c
          | none => true) = true := by
        cases hh : (pystrip (collapseRuns isNLc '\n'
            (collapseRuns isST ' ' (s.map nbspToSpace)))).head? with
        | none => rfl
        | some c => simp [pystrip_head hh]
      have h2 : (match (pystrip (collapseRuns isNLc '\n'
          (collapseRuns isST ' ' (s.map nbspToSpace)))).getLast? with
          | some c => !isPySpace c
          | none => true) = true := by
        cases hh : (pystrip (collapseRuns isNLc '\n'
            (collapseRuns isST ' ' (s.map nbspToSpace)))).getLast? with
        | none => rfl
        | some c => simp [pystrip_last hh]
      rw [h1, h2]
      rfl
    have hidem : norm_text (norm_text s) = norm_text s := by
      by_cases hNe : (norm_text s).isEmpty
      · rw [List.isEmpty_iff.mp hNe]
        rfl
      · have hmapN : (norm_text s).map nbspToSpace = norm_text s := by
          refine map_self_of ?_
          intro c hc
          unfold nbspToSpace
          by_cases hcn : c = nbsp
          · exfalso
            have := hasChar_eq_true_iff.mpr (hcn ▸ hc)
            rw [hnbsp] at this
            cases this
          · rw [if_neg hcn]
        have hcstN : collapseRuns isST ' ' (norm_text s) = norm_text s :=
          collapseRuns_id _ hST_N hST_chars
        have hcnlN : collapseRuns isNLc '\n' (norm_text s) = norm_text s := by
          refine collapseRuns_id _ hNL_N ?_
          intro c _ hc
          unfold isNLc at hc
          simpa using hc
        have hstripN : pystrip (norm_text s) = norm_text s := by
          refine pystrip_id ?_ ?_
          · intro c hc
            rw [hN] at hc
            exact pystrip_head hc
          · intro c hc
            rw [hN] at hc
            exact pystrip_last hc
        calc norm_text (norm_text s)
            = pystrip (collapseRuns isNLc '\n'
                (collapseRuns isST ' ' ((norm_text s).map nbspToSpace))) :=
              norm_ne (norm_text s) (by simpa using hNe)
          _ = norm_text s := by rw [hmapN, hcstN, hcnlN, hstripN]
    exact ⟨hidem, hSpc, hNL_N, hnbsp, hedge⟩

/-! ### Data-map update lemmas (claim C9) -/

theorem dget_dput_self {k : Str} {v : Value} :
    ∀ d : DataMap, dget (dput k v d) k = some v := by
  intro d
  induction d with
  | nil => simp [dput, dget]
  | cons p rest ih =>
    obtain ⟨k', v'⟩ := p
    unfold dput
    by_cases h : k' = k
    · simp [dget, h]
    · simp only [h, Bool.false_eq_true, if_false]
      unfold dget
      rw [if_neg (fun hh => h hh.symm)]
      exact ih

theorem dget_dput_ne {k k' : Str} (hne : k ≠ k') (v : Value) :
    ∀ d : DataMap, dget (dput k' v d) k = dget d k := by
  intro d
  induction d with
  | nil => simp [dput, dget, hne]
  | cons p rest ih =>
    obtain ⟨k0, v0⟩ := p
    unfold dput
    by_cases h : k0 = k'
    · subst h
      rw [if_pos rfl]
      unfold dget
      rw [if_neg hne, if_neg hne]
    · simp only [h, Bool.false_eq_true, if_false]
      unfold dget
      by_cases hk0 : k = k0
      · rw [if_pos hk0, if_pos hk0]
      · rw [if_neg hk0, if_neg hk0]
        exact ih

theorem dget_dputIf_ne {k k' : Str} (hne : k ≠ k') (o : Option α) (f : α → Value)
    (d : DataMap) : dget (dputIf o k' f d) k = dget d k := by
  cases o with
  | none => rfl
  | some a => exact dget_dput_ne hne _ d

theorem dget_dsetdefault_ne {k k' : Str} (hne : k ≠ k') (v : Value) (d : DataMap) :
    dget (dsetdefault k' v d) k = dget d k := by
  unfold dsetdefault
  by_cases h : (dget d k').isSome
  · rw [if_pos h]
  · rw [if_neg h]
    exact dget_dput_ne hne _ d

theorem dget_dsetdefault_self {k : Str} (v : Value) (d : DataMap) :
    dget (dsetdefault k v d) k = some ((dget d k).getD v) := by
  unfold dsetdefault
  cases hd : dget d k with
  | some x => simp [hd]
  | none =>
    simp only [hd, Option.isSome_none, Bool.false_eq_true, if_false, Option.getD_none]
    exact dget_dput_self d

theorem dget_iteD (c : Bool) (d1 d2 : DataMap) (k : Str) :
    dget (if c then d1 else d2) k = if c then dget d1 k else dget d2 k := by
  cases c <;> rfl

theorem roomUpdate_skip {k : Str} (hRT : k ≠ kRoomType) (hNR : k ≠ kNoRoom)
    (hOA : k ≠ kOccAdult) (o : Option Str) (d : DataMap) :
    dget (roomUpdate o d) k = dget d k := by
  cases o with
  | none => rfl
  | some line =>
    unfold roomUpdate
    simp only []
    generalize (roomScan (pysplit (pystrip line)) ([], [])) = rn
    obtain ⟨rts, nums⟩ := rn
    simp only []
    generalize hde : (if rts.isEmpty = true then d
      else dput kRoomType (Value.vStr (joinSpace rts)) d) = d1
    have hd1 : dget d1 k = dget d k := by
      rw [← hde, dget_iteD]
      rw [dget_dput_ne hRT]
      simp
    cases nums with
    | nil => exact hd1
    | cons n0 rest =>
      cases rest with
      | nil =>
        simp only []
        rw [dget_dput_ne hNR]
        exact hd1
      | cons n1 rest' =>
        simp only []
        rw [dget_dput_ne hOA, dget_dput_ne hNR]
        exact hd1

theorem dputIf_none {k : Str} {f : α → Value} {d : DataMap} :
    dputIf (none : Option α) k f d = d := rfl

theorem dget_nil {k : Str} : dget [] k = none := rfl

theorem agodaData_occ_defaults (t : Str) (hR : searchRoomLine t = none)
    (hA : searchAdult t = none) (hC : searchChild t = none) :
    dget (agodaData t) kNoRoom = some (.vStr "1".data) ∧
    dget (agodaData t) kOccAdult = some (.vStr "1".data) ∧
    dget (agodaData t) kOccChild = some (.vStr "0".data) := by
  refine ⟨?_, ?_, ?_⟩
  ·
    simp only [agodaData, hR, hA, hC, roomUpdate, dputIf_none, dget_iteD, ite_self,
      dget_dput_ne (by decide : kNoRoom ≠ kBilling),
      dget_dput_ne (by decide : kNoRoom ≠ kAmount),
      dget_dput_ne (by decide : kNoRoom ≠ kTotal),
      dget_dputIf_ne (by decide : kNoRoom ≠ kTotal),
      dget_dput_ne (by decide : kNoRoom ≠ kDaily),
      dget_dsetdefault_ne (by decide : kNoRoom ≠ kSpecial),
      dget_dsetdefault_ne (by decide : kNoRoom ≠ kOccAdult),
      dget_dsetdefault_ne (by decide : kNoRoom ≠ kOccChild),
      dget_dputIf_ne (by decide : kNoRoom ≠ kCheckout),
      dget_dputIf_ne (by decide : kNoRoom ≠ kCheckin),
      dget_dput_ne (by decide : kNoRoom ≠ kBookedOn),
      dget_dputIf_ne (by decide : kNoRoom ≠ kEmail),
      dget_dputIf_ne (by decide : kNoRoom ≠ kLast),
      dget_dputIf_ne (by decide : kNoRoom ≠ kFirst),
      dget_dputIf_ne (by decide : kNoRoom ≠ kBookingID),
      dget_dput_ne (by decide : kNoRoom ≠ kPrepaid),
      dget_dput_ne (by decide : kNoRoom ≠ kStatus),
      dget_dsetdefault_self, dget_nil, Option.getD_none]
  ·
    simp only [agodaData, hR, hA, hC, roomUpdate, dputIf_none, dget_iteD, ite_self,
      dget_dput_ne (by decide : kOccAdult ≠ kBilling),
      dget_dput_ne (by decide : kOccAdult ≠ kAmount),
      dget_dput_ne (by decide : kOccAdult ≠ kTotal),
      dget_dputIf_ne (by decide : kOccAdult ≠ kTotal),
      dget_dput_ne (by decide : kOccAdult ≠ kDaily),
      dget_dsetdefault_ne (by decide : kOccAdult ≠ kSpecial),
      dget_dsetdefault_ne (by decide : kOccAdult ≠ kNoRoom),
      dget_dsetdefault_ne (by decide : kOccAdult ≠ kOccChild),
      dget_dputIf_ne (by decide : kOccAdult ≠ kCheckout),
      dget_dputIf_ne (by decide : kOccAdult ≠ kCheckin),
      dget_dput_ne (by decide : kOccAdult ≠ kBookedOn),
      dget_dputIf_ne (by decide : kOccAdult ≠ kEmail),
      dget_dputIf_ne (by decide : kOccAdult ≠ kLast),
      dget_dputIf_ne (by decide : kOccAdult ≠ kFirst),
      dget_dputIf_ne (by decide : kOccAdult ≠ kBookingID),
      dget_dput_ne (by decide : kOccAdult ≠ kPrepaid),
      dget_dput_ne (by decide : kOccAdult ≠ kStatus),
      dget_dsetdefault_self, dget_nil, Option.getD_none]
  ·
    simp only [agodaData, hR, hA, hC, roomUpdate, dputIf_none, dget_iteD, ite_self,
      dget_dput_ne (by decide : kOccChild ≠ kBilling),
      dget_dput_ne (by decide : kOccChild ≠ kAmount),
      dget_dput_ne (by decide : kOccChild ≠ kTotal),
      dget_dputIf_ne (by decide : kOccChild ≠ kTotal),
      dget_dput_ne (by decide : kOccChild ≠ kDaily),
      dget_dsetdefault_ne (by decide : kOccChild ≠ kSpecial),
      dget_dsetdefault_ne (by decide : kOccChild ≠ kNoRoom),
      dget_dsetdefault_ne (by decide : kOccChild ≠ kOccAdult),
      dget_dputIf_ne (by decide : kOccChild ≠ kCheckout),
      dget_dputIf_ne (by decide : kOccChild ≠ kCheckin),
      dget_dput_ne (by decide : kOccChild ≠ kBookedOn),
      dget_dputIf_ne (by decide : kOccChild ≠ kEmail),
      dget_dputIf_ne (by decide : kOccChild ≠ kLast),
      dget_dputIf_ne (by decide : kOccChild ≠ kFirst),
      dget_dputIf_ne (by decide : kOccChild ≠ kBookingID),
      dget_dput_ne (by decide : kOccChild ≠ kPrepaid),
      dget_dput_ne (by decide : kOccChild ≠ kStatus),
      dget_dsetdefault_self, dget_nil, Option.getD_none]

/-- Claim C9: for every Agoda document whose (normalised) text contains
no room/occupancy table header and no standalone `<N> Adult` or
`<N> Child` tokens, the normalised record carries the baseline defaults
`No. of room = "1"`, `Occupancy Adult = "1"`,
`Occupancy Childrent = "0"`. -/
theorem claim9_agoda_defaults (text : Str)
    (hR : searchRoomLine (norm_text text) = none)
    (hA : searchAdult (norm_text text) = none)
    (hC : searchChild (norm_text text) = none) :
    ∃ r, agoda_parse text = .ok r ∧
      dget r kNoRoom = some (.vStr "1".data) ∧
      dget r kOccAdult = some (.vStr "1".data) ∧
      dget r kOccChild = some (.vStr "0".data) := by
  obtain ⟨h1, h2, h3⟩ := agodaData_occ_defaults _ hR hA hC
  have hBill : dget (agodaData (norm_text text)) kBilling = some (.vMap []) := by
    simp only [agodaData]
    exact dget_dput_self _
  have hOK : billingOK (agodaData (norm_text text)) = true := by
    unfold billingOK
    rw [hBill]
  refine ⟨FIELD_ORDER.map (fun k => (k, evalField (agodaData (norm_text text)) k)),
    ordered_output_eq _ hOK, ?_, ?_, ?_⟩
  · rw [dget_map_self (show kNoRoom ∈ FIELD_ORDER by decide),
      evalField_other _ (by decide), h1]
    rfl
  · rw [dget_map_self (show kOccAdult ∈ FIELD_ORDER by decide),
      evalField_other _ (by decide), h2]
    rfl
  · rw [dget_map_self (show kOccChild ∈ FIELD_ORDER by decide),
      evalField_other _ (by decide), h3]
    rfl

/-- Claim C9 (witness): a concrete Agoda text with no room table and no
occupancy tokens. -/
theorem claim9_witness :
    searchRoomLine (norm_text "agoda Booking ID 123 PREPAID".data) = none ∧
    searchAdult (norm_text "agoda Booking ID 123 PREPAID".data) = none ∧
    searchChild (norm_text "agoda Booking ID 123 PREPAID".data) = none ∧
    (∃ r, agoda_parse "agoda Booking ID 123 PREPAID".data = .ok r ∧
      dget r kNoRoom = some (.vStr "1".data) ∧
      dget r kOccAdult = some (.vStr "1".data) ∧
      dget r kOccChild = some (.vStr "0".data)) :=
  ⟨rfl, rfl, rfl, claim9_agoda_defaults "agoda Booking ID 123 PREPAID".data rfl rfl rfl⟩

end PdfHtml
